import Mathlib

/-!
# Shallow embedding of `src/menu/columnar_menu.rs` (reedline columnar menu)

This file embeds the data model and the operations of `ColumnarMenu`:
the 2-D cursor navigation (`move_next`, `move_previous`, `move_up`,
`move_down`, `move_left`, `move_right`), the grid-shape derivation
(`get_cols`, `get_rows`), the layout recomputation and event dispatch
(`update_working_details`, `update_values`), partial completion
(`can_partially_complete`), buffer commit (`replace_in_buffer`) and the
window-selection stage of rendering (`menu_string`).

Embedding conventions:
* Rust strings are modelled as `List Char`; `len`, spans and slices are
  index-based (byte offsets and char offsets coincide on the ASCII
  inputs exercised here).
* `u16`/`usize` arithmetic is modelled on `Nat`.  All Rust subtractions
  in this code are `checked_sub`/`saturating_sub`, which `Nat`
  subtraction models exactly.  The one place where a width is cast
  `usize as u16` before being used as a divisor is modelled with
  `% 65536`, because that cast can produce the divisor `0`.
  Integer division by zero is a Rust panic; every operation that
  divides by a run-time quantity is therefore modelled in `Option`,
  `none` standing for the panic.
* External collaborators that live outside this source file (the
  editor/line-buffer surface, the completer, the common-prefix and
  buffer-diff helpers) are modelled from their contracts in the spec;
  each such definition carries a `Modelled from the spec:` comment.
-/

namespace Reedline

/-- Half-open byte-offset interval into the edited buffer
(`reedline::Span`; Rust fields `start`/`end`, the latter renamed `stop`
because `end` is a Lean keyword). -/
structure Span where
  start : Nat
  stop : Nat
deriving DecidableEq, Repr

/-- One candidate completion (`reedline::Suggestion`). -/
structure Suggestion where
  value : List Char
  description : Option (List Char)
  extra : Option (List (List Char))
  span : Span
  append_whitespace : Bool
deriving DecidableEq, Repr

/-- Construction-time reference layout values (`DefaultColumnDetails`). -/
structure DefaultColumnDetails where
  columns : Nat
  col_width : Option Nat
  col_padding : Nat
deriving DecidableEq, Repr

/-- Working layout values recomputed every update cycle (`ColumnDetails`). -/
structure ColumnDetails where
  columns : Nat
  col_width : Nat
deriving DecidableEq, Repr

/-- Events consumed by the menu (`reedline::MenuEvent`). -/
inductive MenuEvent where
  | Activate (updated : Bool)
  | Deactivate
  | Edit (updated : Bool)
  | NextElement
  | PreviousElement
  | MoveUp
  | MoveDown
  | MoveLeft
  | MoveRight
  | PreviousPage
  | NextPage
deriving DecidableEq, Repr

/-- The columnar menu state (`ColumnarMenu`).  The presentation-only
fields `name`, `color` and `marker` (used only inside `create_string`,
which is not needed by any claim) are omitted. -/
structure ColumnarMenu where
  active : Bool
  default_details : DefaultColumnDetails
  min_rows : Nat
  working_details : ColumnDetails
  values : List Suggestion
  col_pos : Nat
  row_pos : Nat
  event : Option MenuEvent
  longest_suggestion : Nat
  input : Option (List Char)
  only_buffer_difference : Bool
deriving DecidableEq, Repr

/-- The `Default` impl of `ColumnarMenu` (columns 4, no fixed width,
padding 2, `min_rows` 3). -/
def defaultColumnarMenu : ColumnarMenu where
  active := false
  default_details := ⟨4, none, 2⟩
  min_rows := 3
  working_details := ⟨0, 0⟩
  values := []
  col_pos := 0
  row_pos := 0
  event := none
  longest_suggestion := 0
  input := none
  only_buffer_difference := false

/-- Modelled from the spec: the external line buffer of the host editor
(§6 "Buffer/editor surface": read text and insertion offset, replace a
byte range, set the insertion offset, report the length). -/
structure LineBuffer where
  buffer : List Char
  insertion_point : Nat
deriving DecidableEq, Repr

/-- Modelled from the spec: `LineBuffer::replace_range` replaces the
half-open byte range `[start, stop)` with `repl`, leaving the insertion
point where it was. -/
def LineBuffer.replaceRange (lb : LineBuffer) (start stop : Nat) (repl : List Char) :
    LineBuffer :=
  { lb with buffer := lb.buffer.take start ++ repl ++ lb.buffer.drop stop }

/-- Modelled from the spec: `LineBuffer::set_insertion_point`. -/
def LineBuffer.setInsertionPoint (lb : LineBuffer) (i : Nat) : LineBuffer :=
  { lb with insertion_point := i }

/-- Modelled from the spec: `LineBuffer::len`, the buffer length. -/
def LineBuffer.length (lb : LineBuffer) : Nat :=
  lb.buffer.length

/-- Modelled from the spec: the host `Editor`, reduced to the line
buffer it exposes to the menu (undo bookkeeping is external and
unobservable here; `set_line_buffer(_, UndoBehavior)` just installs the
new buffer). -/
structure Editor where
  line_buffer : LineBuffer
deriving DecidableEq, Repr

/-- `Editor::get_buffer`. -/
def Editor.getBuffer (e : Editor) : List Char :=
  e.line_buffer.buffer

/-- `Editor::insertion_point`. -/
def Editor.insertionPoint (e : Editor) : Nat :=
  e.line_buffer.insertion_point

/-- `Editor::set_line_buffer` (the `UndoBehavior` argument is dropped). -/
def Editor.setLineBuffer (e : Editor) (lb : LineBuffer) : Editor :=
  { e with line_buffer := lb }

/-- Length of the longest common prefix of two strings (helper for the
spec-modelled external string functions). -/
def lcpLen : List Char → List Char → Nat
  | a :: as, b :: bs => if a = b then lcpLen as bs + 1 else 0
  | _, _ => 0

/-- Modelled from the spec: the external buffer-diff helper
`string_difference` (§6: "given current and previous full buffer text,
returns the offset and text of the differing suffix"). -/
def stringDifference (new old : List Char) : Nat × List Char :=
  let k := lcpLen new old
  (k, new.drop k)

/-- Modelled from the spec: the external common-prefix helper
`find_common_string` (§6: "given the current suggestion list, returns
the longest shared textual prefix across all suggestions plus a
representative suggestion carrying a usable span, or indicates no
common prefix exists").  The representative is the first suggestion and
the returned index is the length of the prefix shared by all values. -/
def findCommonString (values : List Suggestion) : Option Suggestion × Option Nat :=
  match values with
  | [] => (none, none)
  | v :: rest => (some v, some (rest.foldl (fun n s => min n (lcpLen v.value s.value)) v.value.length))

/-- `ColumnarMenu::get_cols`: the working column count coerced to at
least 1. -/
def ColumnarMenu.getCols (m : ColumnarMenu) : Nat :=
  max m.working_details.columns 1

/-- `ColumnarMenu::get_rows`: 1 for an empty value list (the
"no records" line), otherwise `len / cols`, plus one when the division
leaves a remainder. -/
def ColumnarMenu.getRows (m : ColumnarMenu) : Nat :=
  let values := m.values.length
  if values = 0 then 1
  else
    let rows := values / m.getCols
    if values % m.getCols ≠ 0 then rows + 1 else rows

/-- `ColumnarMenu::index`: the linear index derived from the cursor. -/
def ColumnarMenu.index (m : ColumnarMenu) : Nat :=
  m.row_pos * m.getCols + m.col_pos

/-- `ColumnarMenu::get_value`: the currently selected suggestion, if
the cursor points at an existing one. -/
def ColumnarMenu.getValue (m : ColumnarMenu) : Option Suggestion :=
  m.values[m.index]?

/-- `ColumnarMenu::reset_position`. -/
def ColumnarMenu.resetPosition (m : ColumnarMenu) : ColumnarMenu :=
  { m with col_pos := 0, row_pos := 0 }

/-- The cursor denotes an existing cell: the column is inside the
column range and the derived linear index is inside the value list. -/
def ColumnarMenu.ValidCursor (m : ColumnarMenu) : Prop :=
  m.col_pos < m.getCols ∧ m.index < m.values.length

instance (m : ColumnarMenu) : Decidable m.ValidCursor := by
  unfold ColumnarMenu.ValidCursor; infer_instance

/-- `ColumnarMenu::move_next`: advance the column; on column overflow
advance the row and reset the column; on row overflow wrap to the
origin; if the derived index would fall outside the values, reset the
position instead. -/
def ColumnarMenu.moveNext (m : ColumnarMenu) : ColumnarMenu :=
  let cols := m.getCols
  let newCol0 := m.col_pos + 1
  let newCol1 := if newCol0 ≥ cols then 0 else newCol0
  let newRow1 := if newCol0 ≥ cols then m.row_pos + 1 else m.row_pos
  let newCol := if newRow1 ≥ m.getRows then 0 else newCol1
  let newRow := if newRow1 ≥ m.getRows then 0 else newRow1
  let position := newRow * cols + newCol
  if position ≥ m.values.length then m.resetPosition
  else { m with col_pos := newCol, row_pos := newRow }

/-- `ColumnarMenu::move_previous`: `checked_sub` on the column, then on
the row; if the candidate index falls outside the values, clamp to the
last row and to column `len % cols - 1` (saturating). -/
def ColumnarMenu.movePrevious (m : ColumnarMenu) : ColumnarMenu :=
  let cols := m.getCols
  let newCol := if m.col_pos = 0 then cols - 1 else m.col_pos - 1
  let newRow :=
    if m.col_pos = 0 then
      if m.row_pos = 0 then m.getRows - 1 else m.row_pos - 1
    else m.row_pos
  let position := newRow * cols + newCol
  if position ≥ m.values.length then
    { m with col_pos := m.values.length % cols - 1, row_pos := m.getRows - 1 }
  else { m with col_pos := newCol, row_pos := newRow }

/-- `ColumnarMenu::move_up`: decrement the row; on underflow jump to
the last row, stepping one row further back if that cell does not
exist. -/
def ColumnarMenu.moveUp (m : ColumnarMenu) : ColumnarMenu :=
  { m with row_pos :=
      if m.row_pos = 0 then
        if (m.getRows - 1) * m.getCols + m.col_pos ≥ m.values.length then
          m.getRows - 1 - 1
        else m.getRows - 1
      else m.row_pos - 1 }

/-- `ColumnarMenu::move_down`: increment the row; on row overflow, or
when the cell below does not exist, wrap the row to 0. -/
def ColumnarMenu.moveDown (m : ColumnarMenu) : ColumnarMenu :=
  { m with row_pos :=
      if m.row_pos + 1 ≥ m.getRows then 0
      else
        if (m.row_pos + 1) * m.getCols + m.col_pos ≥ m.values.length then 0
        else m.row_pos + 1 }

/-- `ColumnarMenu::move_left`: decrement the column; on underflow wrap
to the last column of the same row, except when the cursor sits on the
very last value, in which case wrap to column 0. -/
def ColumnarMenu.moveLeft (m : ColumnarMenu) : ColumnarMenu :=
  { m with col_pos :=
      if m.col_pos = 0 then
        if m.index + 1 = m.values.length then 0 else m.getCols - 1
      else m.col_pos - 1 }

/-- `ColumnarMenu::move_right`: increment the column; wrap to column 0
when this would exceed the column count or move past the last value
(`index + 2 > len`). -/
def ColumnarMenu.moveRight (m : ColumnarMenu) : ColumnarMenu :=
  { m with col_pos :=
      if m.col_pos + 1 ≥ m.getCols ∨ m.index + 2 > m.values.length then 0
      else m.col_pos + 1 }

/-- `ColumnarMenu::update_values`: in delta mode, complete against the
difference between the buffer and the activation snapshot (a no-op
when the difference is empty); otherwise complete against the whole
buffer with newlines replaced by spaces.  The external completer is a
parameter `complete`. -/
def ColumnarMenu.updateValues (m : ColumnarMenu) (editor : Editor)
    (complete : List Char → Nat → List Suggestion) : ColumnarMenu :=
  if m.only_buffer_difference then
    match m.input with
    | some oldString =>
      let d := stringDifference editor.getBuffer oldString
      if d.2 ≠ [] then
        { m with values := complete d.2 d.1, col_pos := 0, row_pos := 0 }
      else m
    | none => m
  else
    let trimmedBuffer := editor.getBuffer.map (fun c => if c = '\n' then ' ' else c)
    { m with values := complete trimmedBuffer editor.insertionPoint,
             col_pos := 0, row_pos := 0 }

/-- The `max_width` fold of `update_working_details`: the largest
`value.len() + col_padding` over the suggestions, starting from 0. -/
def layoutMaxWidth (values : List Suggestion) (padding : Nat) : Nat :=
  values.foldl (fun acc s =>
    let strLen := s.value.length + padding
    if strLen > acc then strLen else acc) 0

/-- The `default_width` of `update_working_details`: the configured
fixed width, or the screen width divided by the default column count.
The division is a `u16` division; `none` models the divide-by-zero
panic when the configured column count is 0. -/
def layoutDefaultWidth (dd : DefaultColumnDetails) (screenWidth : Nat) : Option Nat :=
  match dd.col_width with
  | some w => some w
  | none => if dd.columns = 0 then none else some (screenWidth / dd.columns)

/-- The `longest_suggestion` fold of `update_working_details`. -/
def layoutLongest (values : List Suggestion) : Nat :=
  values.foldl (fun prev s =>
    if prev ≥ s.value.length then prev else s.value.length) 0

/-- The layout-recomputation half of
`ColumnarMenu::update_working_details` (run before the event is
routed).  If any suggestion has a description: one column of the full
screen width.  Otherwise the working width is
`max(max_width, default_width)` and the working column count is the
default count, unless fewer columns fit the screen.  `none` models the
two possible divide-by-zero panics: `screen_width / columns` with a
configured count of 0, and `screen_width / (col_width as u16)` when
the computed width is 0 (or a multiple of 65536, which the `as u16`
cast truncates to 0). -/
def layoutRecompute (m : ColumnarMenu) (screenWidth : Nat) : Option ColumnarMenu :=
  let existDescription := m.values.any (fun s => s.description.isSome)
  if existDescription then
    some { m with working_details := ⟨1, screenWidth⟩,
                  longest_suggestion := layoutLongest m.values }
  else
    let maxWidth := layoutMaxWidth m.values m.default_details.col_padding
    match layoutDefaultWidth m.default_details screenWidth with
    | none => none
    | some defaultWidth =>
      let colWidth := if maxWidth > defaultWidth then maxWidth else defaultWidth
      let colWidthU16 := colWidth % 65536
      if colWidthU16 = 0 then none
      else
        let possibleCols := screenWidth / colWidthU16
        let columns :=
          if possibleCols > m.default_details.columns then
            max m.default_details.columns 1
          else possibleCols
        some { m with working_details := ⟨columns, colWidth⟩ }

/-- The event-routing half of `ColumnarMenu::update_working_details`
(the `match event` run after the layout recomputation): activation,
deactivation, edit, the six moves, and the two unimplemented page
events. -/
def ColumnarMenu.routeEvent (m : ColumnarMenu) (editor : Editor)
    (complete : List Char → Nat → List Suggestion) (e : MenuEvent) :
    ColumnarMenu :=
  match e with
  | .Activate updated =>
    let m := { m with active := true, col_pos := 0, row_pos := 0,
                      input := if m.only_buffer_difference then
                                 some editor.getBuffer
                               else none }
    if !updated then m.updateValues editor complete else m
  | .Deactivate => { m with active := false }
  | .Edit updated =>
    let m := { m with col_pos := 0, row_pos := 0 }
    if !updated then m.updateValues editor complete else m
  | .NextElement => m.moveNext
  | .PreviousElement => m.movePrevious
  | .MoveUp => m.moveUp
  | .MoveDown => m.moveDown
  | .MoveLeft => m.moveLeft
  | .MoveRight => m.moveRight
  | .PreviousPage => m
  | .NextPage => m

/-- `ColumnarMenu::update_working_details`: take the pending event (a
no-op when there is none), recompute the layout, then route the event. -/
def ColumnarMenu.updateWorkingDetails (m : ColumnarMenu) (editor : Editor)
    (complete : List Char → Nat → List Suggestion) (screenWidth : Nat) :
    Option ColumnarMenu :=
  match m.event with
  | none => some m
  | some e =>
    let m := { m with event := none }
    match layoutRecompute m screenWidth with
    | none => none
    | some m => some (m.routeEvent editor complete e)

/-- The shared prefix actually used by `can_partially_complete`: the
common-prefix length reported by `find_common_string`, clamped to the
representative value's length, sliced off the representative value. -/
def sharedMatching (values : List Suggestion) : List Char :=
  match findCommonString values with
  | (some v, some idx) => v.value.take (min idx v.value.length)
  | _ => []

/-- The buffer text covered by the representative suggestion's span:
the slice `&editor.get_buffer()[span.start..span.end]` taken by
`can_partially_complete`.  A direct slice is a fault (`none`) when the
range is inverted or reaches past the buffer — this path, unlike
`replace_in_buffer`, does not clamp.  With no representative (empty
value list) the slice is never taken and there is no covered text. -/
def coveredText (values : List Suggestion) (editor : Editor) : Option (List Char) :=
  match findCommonString values with
  | (some v, _) =>
    if v.span.stop < v.span.start ∨ editor.getBuffer.length < v.span.stop then none
    else some ((editor.getBuffer.drop v.span.start).take (v.span.stop - v.span.start))
  | _ => none

/-- `ColumnarMenu::can_partially_complete` on already-updated values
(the `values_updated = true` path; the skipped `update_values` call
replaces the menu's values but never touches the editor).  The covered
buffer text is read with the direct slice
`&editor.get_buffer()[span.start..span.end]`, which panics when the
range is inverted or reaches past the buffer; `none` models that
fault.  Otherwise returns the success flag together with the updated
menu and editor; on success the shared prefix is spliced over the
representative span, the insertion point is shifted by the length
difference, and the values are refreshed because the spans went
stale. -/
def ColumnarMenu.canPartiallyComplete (m : ColumnarMenu) (editor : Editor)
    (complete : List Char → Nat → List Suggestion) :
    Option (Bool × ColumnarMenu × Editor) :=
  match findCommonString m.values with
  | (some v, some idx) =>
    let index := min idx v.value.length
    let matching := v.value.take index
    if v.span.stop < v.span.start ∨ editor.getBuffer.length < v.span.stop then none
    else
      let covered := (editor.getBuffer.drop v.span.start).take (v.span.stop - v.span.start)
      let extendsInput := covered.isPrefixOf matching
      if matching ≠ [] ∧ extendsInput then
        let lineBuffer := editor.line_buffer
        let lineBuffer := lineBuffer.replaceRange v.span.start v.span.stop matching
        let offset :=
          if matching.length < v.span.stop - v.span.start then
            lineBuffer.insertion_point - ((v.span.stop - v.span.start) - matching.length)
          else
            lineBuffer.insertion_point + matching.length - (v.span.stop - v.span.start)
        let lineBuffer := lineBuffer.setInsertionPoint offset
        let editor := editor.setLineBuffer lineBuffer
        some (true, m.updateValues editor complete, editor)
      else some (false, m, editor)
  | _ => some (false, m, editor)

/-- `ColumnarMenu::replace_in_buffer`: splice the selected suggestion's
value (plus a trailing space when `append_whitespace` is set) over its
span, both span ends clamped to the buffer length; then move the
insertion point by the saturating formula
`ip + value.len() - (end - start)`.  A no-op when no suggestion is
selected. -/
def ColumnarMenu.replaceInBuffer (m : ColumnarMenu) (editor : Editor) : Editor :=
  match m.getValue with
  | none => editor
  | some s =>
    let start := min s.span.start editor.line_buffer.length
    let stop := min s.span.stop editor.line_buffer.length
    let value := if s.append_whitespace then s.value ++ [' '] else s.value
    let lineBuffer := editor.line_buffer.replaceRange start stop value
    let offset := lineBuffer.insertion_point + value.length - (stop - start)
    let lineBuffer := lineBuffer.setInsertionPoint offset
    editor.setLineBuffer lineBuffer

/-- The `skip_values` computation of `ColumnarMenu::menu_string`: when
the cursor row is not within the first `available_lines` rows, skip
`(row_pos - available_lines + 1)` whole grid rows of suggestions. -/
def ColumnarMenu.skipValues (m : ColumnarMenu) (availableLines : Nat) : Nat :=
  if m.row_pos ≥ availableLines then
    (m.row_pos - availableLines + 1) * m.getCols
  else 0

/-- The window-selection stage of `ColumnarMenu::menu_string` (the
`skip`/`take`/`enumerate` pipeline with the index corrected by the
number of skipped values): the list of `(global index, suggestion)`
cells actually rendered.  The subsequent per-cell string formatting
(`create_string`) maps over exactly these cells and does not change
which cells are rendered. -/
def ColumnarMenu.renderedCells (m : ColumnarMenu) (availableLines : Nat) :
    List (Nat × Suggestion) :=
  let skip := m.skipValues availableLines
  let availableValues := availableLines * m.getCols
  ((m.values.drop skip).take availableValues).enum.map
    (fun p => (p.1 + skip, p.2))

/-- A minimal suggestion used to build concrete menus. -/
def blankSuggestion : Suggestion :=
  { value := ['x'], description := none, extra := none, span := ⟨0, 0⟩,
    append_whitespace := false }

/-- A concrete menu with `n` copies of `blankSuggestion`, `cols` working
columns and the cursor at `(col, row)`. -/
def menuOf (n cols col row : Nat) : ColumnarMenu :=
  { defaultColumnarMenu with
      values := List.replicate n blankSuggestion,
      working_details := ⟨cols, 10⟩, col_pos := col, row_pos := row }

/-- A concrete suggestion whose span reaches past the sample editor's
buffer, exercising the defensive clamp of `replace_in_buffer`. -/
def sampleSelSug : Suggestion :=
  { value := ['a', 'b'], description := none, extra := none, span := ⟨1, 9⟩,
    append_whitespace := true }

/-- A concrete menu holding only `sampleSelSug`, cursor at the origin. -/
def sampleSelMenu : ColumnarMenu :=
  { defaultColumnarMenu with values := [sampleSelSug] }

/-- A concrete editor with a three-character buffer, caret at its end. -/
def sampleEditor : Editor :=
  { line_buffer := { buffer := ['x', 'y', 'z'], insertion_point := 3 } }

/-- A concrete menu configured with a default column count of 0 and no
fixed column width: layout recomputation divides the screen width by
the configured count. -/
def faultMenu : ColumnarMenu :=
  { defaultColumnarMenu with
      default_details := ⟨0, none, 2⟩,
      values := [blankSuggestion], event := some MenuEvent.NextElement }

/-- A concrete suggestion carrying a description. -/
def descSug : Suggestion :=
  { value := ['a', 'b', 'c'], description := some ['d'], extra := none,
    span := ⟨0, 0⟩, append_whitespace := false }

/-- A concrete menu whose single suggestion carries a description, with
a pending event. -/
def descMenu : ColumnarMenu :=
  { defaultColumnarMenu with
      values := [descSug],
      event := some MenuEvent.NextElement }

/-- A concrete menu whose single suggestion has no description, with a
pending event (default configuration: 4 columns, padding 2). -/
def nodescMenu : ColumnarMenu :=
  { defaultColumnarMenu with
      values := [blankSuggestion],
      event := some MenuEvent.NextElement }

/-- A completer stub returning no suggestions. -/
def emptyCompleter : List Char → Nat → List Suggestion :=
  fun _ _ => []

/-- The suggestion `build.rs` with an empty span (as produced by the
completer for an empty buffer), from the partial-completion tests. -/
def bSug1 : Suggestion :=
  { value := ['b', 'u', 'i', 'l', 'd', '.', 'r', 's'], description := none,
    extra := none, span := ⟨0, 0⟩, append_whitespace := false }

/-- The suggestion `build-all.sh` with an empty span. -/
def bSug2 : Suggestion :=
  { value := ['b', 'u', 'i', 'l', 'd', '-', 'a', 'l', 'l', '.', 's', 'h'],
    description := none, extra := none, span := ⟨0, 0⟩,
    append_whitespace := false }

/-- A concrete menu holding the two `build*` suggestions. -/
def partialMenu : ColumnarMenu :=
  { defaultColumnarMenu with values := [bSug1, bSug2] }

/-- An editor over the empty buffer. -/
def emptyEditor : Editor :=
  { line_buffer := { buffer := [], insertion_point := 0 } }

/-- The suggestion `build.rs` with span `[0, 5)`, as produced by the
completer while the buffer still read `build`. -/
def bSug1Stale : Suggestion :=
  { value := ['b', 'u', 'i', 'l', 'd', '.', 'r', 's'], description := none,
    extra := none, span := ⟨0, 5⟩, append_whitespace := false }

/-- The suggestion `build-all.sh` with span `[0, 5)`. -/
def bSug2Stale : Suggestion :=
  { value := ['b', 'u', 'i', 'l', 'd', '-', 'a', 'l', 'l', '.', 's', 'h'],
    description := none, extra := none, span := ⟨0, 5⟩,
    append_whitespace := false }

/-- A concrete menu whose suggestions carry spans that reach past the
(since shrunk) buffer of `shortEditor`. -/
def staleMenu : ColumnarMenu :=
  { defaultColumnarMenu with values := [bSug1Stale, bSug2Stale] }

/-- An editor whose buffer shrank to the single character `a`. -/
def shortEditor : Editor :=
  { line_buffer := { buffer := ['a'], insertion_point := 1 } }

/-! ## Arithmetic facts about the grid shape -/

theorem ColumnarMenu.getCols_pos (m : ColumnarMenu) : 0 < m.getCols :=
  Nat.lt_of_lt_of_le Nat.zero_lt_one (le_max_right _ _)

theorem ColumnarMenu.getRows_pos (m : ColumnarMenu) : 0 < m.getRows := by
  have hC := m.getCols_pos
  simp only [ColumnarMenu.getRows]
  split
  · exact Nat.zero_lt_one
  · rename_i hne
    split
    · exact Nat.succ_pos _
    · rename_i hmod
      have hdvd : m.getCols ∣ m.values.length :=
        Nat.dvd_of_mod_eq_zero (by omega)
      have hle : m.getCols ≤ m.values.length := Nat.le_of_dvd (by omega) hdvd
      exact Nat.div_pos hle hC

theorem Nat.subOneMul (q C : Nat) : (q - 1) * C = q * C - C := by
  rw [Nat.sub_mul, Nat.one_mul]

/-- The grid has at least as many cells as values. -/
theorem ColumnarMenu.rows_mul_ge (m : ColumnarMenu) (h : 0 < m.values.length) :
    m.values.length ≤ m.getRows * m.getCols := by
  have hC := m.getCols_pos
  have hdm := Nat.div_add_mod m.values.length m.getCols
  have hlt : m.values.length % m.getCols < m.getCols := Nat.mod_lt _ hC
  simp only [ColumnarMenu.getRows]
  rw [if_neg (by omega)]
  split
  · have : (m.values.length / m.getCols + 1) * m.getCols
        = m.getCols * (m.values.length / m.getCols) + m.getCols := by ring
    omega
  · have : m.values.length / m.getCols * m.getCols
        = m.getCols * (m.values.length / m.getCols) := Nat.mul_comm _ _
    omega

/-- Dropping the last grid row loses at least one value: the last row is
never empty. -/
theorem ColumnarMenu.rows_pred_mul_lt (m : ColumnarMenu) (h : 0 < m.values.length) :
    (m.getRows - 1) * m.getCols < m.values.length := by
  have hC := m.getCols_pos
  have hdm := Nat.div_add_mod m.values.length m.getCols
  have hlt : m.values.length % m.getCols < m.getCols := Nat.mod_lt _ hC
  simp only [ColumnarMenu.getRows]
  rw [if_neg (by omega)]
  split
  · rename_i hmod
    have h1 : m.values.length / m.getCols + 1 - 1 = m.values.length / m.getCols :=
      Nat.succ_sub_one _
    rw [h1]
    have h2 : m.values.length / m.getCols * m.getCols
        = m.getCols * (m.values.length / m.getCols) := Nat.mul_comm _ _
    omega
  · rename_i hmod
    have hdvd : m.getCols ∣ m.values.length := Nat.dvd_of_mod_eq_zero (by omega)
    have hle : m.getCols ≤ m.values.length := Nat.le_of_dvd (by omega) hdvd
    have hq : 0 < m.values.length / m.getCols := Nat.div_pos hle hC
    have h1 := Nat.subOneMul (m.values.length / m.getCols) m.getCols
    have h2 : m.values.length / m.getCols * m.getCols
        = m.getCols * (m.values.length / m.getCols) := Nat.mul_comm _ _
    have h3 : m.getCols ≤ m.values.length / m.getCols * m.getCols :=
      Nat.le_mul_of_pos_left _ hq
    omega

theorem Nat.ltOfMulLtMulRightVar {a b C : Nat} (h : a * C < b * C) : a < b := by
  by_contra hab
  push_neg at hab
  exact absurd (Nat.mul_le_mul_right C hab) (by omega)

theorem rowColMod {row C col : Nat} (hc : col < C) : (row * C + col) % C = col := by
  rw [Nat.mul_comm, Nat.mul_add_mod]
  exact Nat.mod_eq_of_lt hc

theorem rowColDiv {row C col : Nat} (hC : 0 < C) (hc : col < C) :
    (row * C + col) / C = row := by
  rw [Nat.mul_comm, Nat.mul_add_div hC, Nat.div_eq_of_lt hc]
  exact Nat.add_zero row

theorem indexRecompose (n C : Nat) : n / C * C + n % C = n := by
  rw [Nat.mul_comm]
  exact Nat.div_add_mod n C

/-- A valid cursor row lies inside the row range. -/
theorem ColumnarMenu.row_lt_rows (m : ColumnarMenu)
    (hidx : m.index < m.values.length) : m.row_pos < m.getRows := by
  have hub := m.rows_mul_ge (by omega)
  have hge : m.row_pos * m.getCols ≤ m.index := Nat.le_add_right _ _
  exact Nat.ltOfMulLtMulRightVar (a := m.row_pos) (b := m.getRows) (C := m.getCols)
    (by omega)

/-! ## The moves only touch the cursor -/

@[simp] theorem ColumnarMenu.moveNext_values (m : ColumnarMenu) :
    m.moveNext.values = m.values := by
  simp only [ColumnarMenu.moveNext, ColumnarMenu.resetPosition]
  split_ifs <;> rfl

@[simp] theorem ColumnarMenu.moveNext_working (m : ColumnarMenu) :
    m.moveNext.working_details = m.working_details := by
  simp only [ColumnarMenu.moveNext, ColumnarMenu.resetPosition]
  split_ifs <;> rfl

@[simp] theorem ColumnarMenu.movePrevious_values (m : ColumnarMenu) :
    m.movePrevious.values = m.values := by
  simp only [ColumnarMenu.movePrevious]
  split_ifs <;> rfl

@[simp] theorem ColumnarMenu.movePrevious_working (m : ColumnarMenu) :
    m.movePrevious.working_details = m.working_details := by
  simp only [ColumnarMenu.movePrevious]
  split_ifs <;> rfl

@[simp] theorem ColumnarMenu.moveNext_getCols (m : ColumnarMenu) :
    m.moveNext.getCols = m.getCols := by
  simp only [ColumnarMenu.getCols, ColumnarMenu.moveNext_working]

@[simp] theorem ColumnarMenu.movePrevious_getCols (m : ColumnarMenu) :
    m.movePrevious.getCols = m.getCols := by
  simp only [ColumnarMenu.getCols, ColumnarMenu.movePrevious_working]

/-- The row count is `len / cols`, plus one on a nonzero remainder. -/
theorem ColumnarMenu.getRows_eq (m : ColumnarMenu) (h : 0 < m.values.length) :
    m.getRows = m.values.length / m.getCols
      + (if m.values.length % m.getCols = 0 then 0 else 1) := by
  simp only [ColumnarMenu.getRows]
  rw [if_neg (by omega)]
  by_cases hr : m.values.length % m.getCols = 0
  · rw [if_neg (by omega), if_pos hr]
    omega
  · rw [if_pos hr, if_neg hr]

/-- On a valid cursor, `move_next` acts on the derived linear index as
the successor modulo the number of values. -/
theorem ColumnarMenu.moveNext_pos (m : ColumnarMenu)
    (hcol : m.col_pos < m.getCols) (hidx : m.index < m.values.length) :
    m.moveNext.col_pos = (m.index + 1) % m.values.length % m.getCols ∧
    m.moveNext.row_pos = (m.index + 1) % m.values.length / m.getCols := by
  have hC : 0 < m.getCols := m.getCols_pos
  have hL : 0 < m.values.length := by omega
  have hub : m.values.length ≤ m.getRows * m.getCols := m.rows_mul_ge hL
  have hR : 0 < m.getRows := m.getRows_pos
  have hrow : m.row_pos < m.getRows := m.row_lt_rows hidx
  have hidx' : m.index = m.row_pos * m.getCols + m.col_pos := rfl
  simp only [ColumnarMenu.moveNext, ColumnarMenu.resetPosition]
  by_cases h1 : m.col_pos + 1 ≥ m.getCols
  · have hcolEq : m.col_pos = m.getCols - 1 := by omega
    simp only [if_pos h1]
    by_cases h2 : m.row_pos + 1 ≥ m.getRows
    · simp only [if_pos h2]
      have hmul := Nat.subOneMul m.getRows m.getCols
      have hCle : m.getCols ≤ m.getRows * m.getCols := Nat.le_mul_of_pos_left _ hR
      have hi2 : m.index = (m.getRows - 1) * m.getCols + (m.getCols - 1) := by
        rw [hidx', hcolEq]
        have : m.row_pos = m.getRows - 1 := by omega
        rw [this]
      have hiEq : m.index + 1 = m.values.length := by omega
      have hmod0 : (m.index + 1) % m.values.length = 0 := by
        rw [hiEq]
        exact Nat.mod_self _
      rw [if_neg (by omega)]
      exact ⟨by simp [hmod0], by simp [hmod0]⟩
    · simp only [if_neg h2]
      have hsm : (m.row_pos + 1) * m.getCols = m.row_pos * m.getCols + m.getCols :=
        Nat.succ_mul _ _
      have hpos : (m.row_pos + 1) * m.getCols + 0 = m.index + 1 := by omega
      by_cases h3 : (m.row_pos + 1) * m.getCols + 0 ≥ m.values.length
      · rw [if_pos h3]
        have hiEq : m.index + 1 = m.values.length := by omega
        have hmod0 : (m.index + 1) % m.values.length = 0 := by
          rw [hiEq]
          exact Nat.mod_self _
        exact ⟨by simp [hmod0], by simp [hmod0]⟩
      · rw [if_neg h3]
        have hmodEq : (m.index + 1) % m.values.length = m.index + 1 :=
          Nat.mod_eq_of_lt (by omega)
        constructor
        · show (0 : Nat) = _
          rw [hmodEq, ← hpos, Nat.add_zero, Nat.mul_mod_left]
        · show m.row_pos + 1 = _
          rw [hmodEq, ← hpos]
          simp only [Nat.add_zero]
          rw [Nat.mul_div_cancel _ hC]
  · simp only [if_neg h1]
    have h2 : ¬ (m.row_pos ≥ m.getRows) := by omega
    simp only [if_neg h2]
    have hpos : m.row_pos * m.getCols + (m.col_pos + 1) = m.index + 1 := by omega
    by_cases h3 : m.row_pos * m.getCols + (m.col_pos + 1) ≥ m.values.length
    · rw [if_pos h3]
      have hiEq : m.index + 1 = m.values.length := by omega
      have hmod0 : (m.index + 1) % m.values.length = 0 := by
        rw [hiEq]
        exact Nat.mod_self _
      exact ⟨by simp [hmod0], by simp [hmod0]⟩
    · rw [if_neg h3]
      have hmodEq : (m.index + 1) % m.values.length = m.index + 1 :=
        Nat.mod_eq_of_lt (by omega)
      constructor
      · show m.col_pos + 1 = _
        rw [hmodEq, ← hpos, rowColMod (by omega)]
      · show m.row_pos = _
        rw [hmodEq, ← hpos, rowColDiv hC (by omega)]

/-- On a valid cursor, `move_previous` acts on the derived linear index
as the predecessor modulo the number of values (including the clamp to
the last occupied cell when wrapping from the origin of a grid whose
last row is only partially filled). -/
theorem ColumnarMenu.movePrevious_pos (m : ColumnarMenu)
    (hcol : m.col_pos < m.getCols) (hidx : m.index < m.values.length) :
    m.movePrevious.col_pos
      = (m.index + m.values.length - 1) % m.values.length % m.getCols ∧
    m.movePrevious.row_pos
      = (m.index + m.values.length - 1) % m.values.length / m.getCols := by
  have hC : 0 < m.getCols := m.getCols_pos
  have hL : 0 < m.values.length := by omega
  have hub := m.rows_mul_ge hL
  have hlb := m.rows_pred_mul_lt hL
  have hR : 0 < m.getRows := m.getRows_pos
  have hrow : m.row_pos < m.getRows := m.row_lt_rows hidx
  have hidx' : m.index = m.row_pos * m.getCols + m.col_pos := rfl
  simp only [ColumnarMenu.movePrevious]
  by_cases h1 : m.col_pos = 0
  · by_cases h2 : m.row_pos = 0
    · simp only [if_pos h1, if_pos h2]
      have hi0 : m.index = 0 := by
        rw [hidx', h1, h2]
        simp
      have hnEq : (m.index + m.values.length - 1) % m.values.length
          = m.values.length - 1 := by
        rw [hi0, Nat.zero_add]
        exact Nat.mod_eq_of_lt (by omega)
      rw [hnEq]
      have hdm := Nat.div_add_mod m.values.length m.getCols
      have hq2 : m.values.length / m.getCols * m.getCols
          = m.getCols * (m.values.length / m.getCols) := Nat.mul_comm _ _
      have hrlt : m.values.length % m.getCols < m.getCols := Nat.mod_lt _ hC
      have hRe := m.getRows_eq hL
      by_cases h3 : (m.getRows - 1) * m.getCols + (m.getCols - 1) ≥ m.values.length
      · rw [if_pos h3]
        have hr1 : m.values.length % m.getCols ≠ 0 := by
          intro hr0
          have hR0 : m.getRows = m.values.length / m.getCols := by
            rw [hRe, if_pos hr0]
            omega
          have hq1 : 1 ≤ m.values.length / m.getCols := by omega
          have hsub := Nat.subOneMul (m.values.length / m.getCols) m.getCols
          have hCleq : m.getCols ≤ m.values.length / m.getCols * m.getCols :=
            Nat.le_mul_of_pos_left _ hq1
          rw [hR0] at h3
          omega
        have hReq : m.getRows = m.values.length / m.getCols + 1 := by
          rw [hRe, if_neg hr1]
        constructor
        · show m.values.length % m.getCols - 1 = _
          have hlm : m.values.length - 1
              = m.values.length / m.getCols * m.getCols
                + (m.values.length % m.getCols - 1) := by omega
          rw [hlm, rowColMod (by omega)]
        · show m.getRows - 1 = _
          have hlm : m.values.length - 1
              = m.values.length / m.getCols * m.getCols
                + (m.values.length % m.getCols - 1) := by omega
          rw [hlm, rowColDiv hC (by omega), hReq]
          omega
      · rw [if_neg h3]
        have hmul := Nat.subOneMul m.getRows m.getCols
        have hCle : m.getCols ≤ m.getRows * m.getCols := Nat.le_mul_of_pos_left _ hR
        have hlen : m.values.length - 1
            = (m.getRows - 1) * m.getCols + (m.getCols - 1) := by omega
        constructor
        · show m.getCols - 1 = _
          rw [hlen, rowColMod (by omega)]
        · show m.getRows - 1 = _
          rw [hlen, rowColDiv hC (by omega)]
    · simp only [if_pos h1, if_neg h2]
      have hrow1 : 1 ≤ m.row_pos := by omega
      have hsub := Nat.subOneMul m.row_pos m.getCols
      have hCle : m.getCols ≤ m.row_pos * m.getCols :=
        Nat.le_mul_of_pos_left _ hrow1
      have hi : m.index = m.row_pos * m.getCols + 0 := by rw [hidx', h1]
      have hpos : (m.row_pos - 1) * m.getCols + (m.getCols - 1) = m.index - 1 := by
        omega
      rw [if_neg (by omega)]
      have hnEq : (m.index + m.values.length - 1) % m.values.length
          = m.index - 1 := by
        have h' : m.index + m.values.length - 1
            = (m.index - 1) + m.values.length := by omega
        rw [h', Nat.add_mod_right]
        exact Nat.mod_eq_of_lt (by omega)
      rw [hnEq]
      constructor
      · show m.getCols - 1 = _
        rw [← hpos, rowColMod (by omega)]
      · show m.row_pos - 1 = _
        rw [← hpos, rowColDiv hC (by omega)]
  · simp only [if_neg h1]
    have hcol1 : 1 ≤ m.col_pos := by omega
    have hpos : m.row_pos * m.getCols + (m.col_pos - 1) = m.index - 1 := by omega
    rw [if_neg (by omega)]
    have hnEq : (m.index + m.values.length - 1) % m.values.length
        = m.index - 1 := by
      have h' : m.index + m.values.length - 1
          = (m.index - 1) + m.values.length := by omega
      rw [h', Nat.add_mod_right]
      exact Nat.mod_eq_of_lt (by omega)
    rw [hnEq]
    constructor
    · show m.col_pos - 1 = _
      rw [← hpos, rowColMod (by omega)]
    · show m.row_pos = _
      rw [← hpos, rowColDiv hC (by omega)]

/-- `move_next` keeps the cursor on an existing cell. -/
theorem ColumnarMenu.moveNext_valid (m : ColumnarMenu) (h : m.ValidCursor) :
    m.moveNext.ValidCursor := by
  obtain ⟨hcol, hidx⟩ := h
  have hC := m.getCols_pos
  have hL : 0 < m.values.length := by omega
  obtain ⟨hc, hr⟩ := m.moveNext_pos hcol hidx
  constructor
  · rw [hc, ColumnarMenu.moveNext_getCols]
    exact Nat.mod_lt _ hC
  · show m.moveNext.row_pos * m.moveNext.getCols + m.moveNext.col_pos
        < m.moveNext.values.length
    rw [ColumnarMenu.moveNext_getCols, ColumnarMenu.moveNext_values, hc, hr,
      indexRecompose]
    exact Nat.mod_lt _ hL

/-- `move_previous` keeps the cursor on an existing cell. -/
theorem ColumnarMenu.movePrevious_valid (m : ColumnarMenu) (h : m.ValidCursor) :
    m.movePrevious.ValidCursor := by
  obtain ⟨hcol, hidx⟩ := h
  have hC := m.getCols_pos
  have hL : 0 < m.values.length := by omega
  obtain ⟨hc, hr⟩ := m.movePrevious_pos hcol hidx
  constructor
  · rw [hc, ColumnarMenu.movePrevious_getCols]
    exact Nat.mod_lt _ hC
  · show m.movePrevious.row_pos * m.movePrevious.getCols + m.movePrevious.col_pos
        < m.movePrevious.values.length
    rw [ColumnarMenu.movePrevious_getCols, ColumnarMenu.movePrevious_values, hc, hr,
      indexRecompose]
    exact Nat.mod_lt _ hL

/-- `move_up` keeps the cursor on an existing cell. -/
theorem ColumnarMenu.moveUp_valid (m : ColumnarMenu) (h : m.ValidCursor) :
    m.moveUp.ValidCursor := by
  obtain ⟨hcol, hidx⟩ := h
  have hC := m.getCols_pos
  have hL : 0 < m.values.length := by omega
  have hR := m.getRows_pos
  have hlb := m.rows_pred_mul_lt hL
  have hrow := m.row_lt_rows hidx
  have hidx' : m.index = m.row_pos * m.getCols + m.col_pos := rfl
  constructor
  · exact hcol
  · show m.moveUp.row_pos * m.getCols + m.col_pos < m.values.length
    have e5 : m.moveUp.row_pos
        = if m.row_pos = 0 then
            (if (m.getRows - 1) * m.getCols + m.col_pos ≥ m.values.length then
               m.getRows - 1 - 1
             else m.getRows - 1)
          else m.row_pos - 1 := rfl
    rw [e5]
    by_cases h0 : m.row_pos = 0
    · rw [if_pos h0]
      have hz : m.row_pos * m.getCols = 0 := by
        rw [h0]
        simp
      by_cases hcell : (m.getRows - 1) * m.getCols + m.col_pos ≥ m.values.length
      · rw [if_pos hcell]
        have hsub := Nat.subOneMul (m.getRows - 1) m.getCols
        omega
      · rw [if_neg hcell]
        omega
    · rw [if_neg h0]
      have hsub := Nat.subOneMul m.row_pos m.getCols
      omega

/-- `move_down` keeps the cursor on an existing cell. -/
theorem ColumnarMenu.moveDown_valid (m : ColumnarMenu) (h : m.ValidCursor) :
    m.moveDown.ValidCursor := by
  obtain ⟨hcol, hidx⟩ := h
  have hC := m.getCols_pos
  have hidx' : m.index = m.row_pos * m.getCols + m.col_pos := rfl
  constructor
  · exact hcol
  · show m.moveDown.row_pos * m.getCols + m.col_pos < m.values.length
    have e5 : m.moveDown.row_pos
        = if m.row_pos + 1 ≥ m.getRows then 0
          else
            (if (m.row_pos + 1) * m.getCols + m.col_pos ≥ m.values.length then 0
             else m.row_pos + 1) := rfl
    rw [e5]
    by_cases h0 : m.row_pos + 1 ≥ m.getRows
    · rw [if_pos h0]
      simp only [Nat.zero_mul]
      omega
    · rw [if_neg h0]
      by_cases h1 : (m.row_pos + 1) * m.getCols + m.col_pos ≥ m.values.length
      · rw [if_pos h1]
        simp only [Nat.zero_mul]
        omega
      · rw [if_neg h1]
        omega

/-- `move_right` keeps the cursor on an existing cell. -/
theorem ColumnarMenu.moveRight_valid (m : ColumnarMenu) (h : m.ValidCursor) :
    m.moveRight.ValidCursor := by
  obtain ⟨hcol, hidx⟩ := h
  have hC := m.getCols_pos
  have hidx' : m.index = m.row_pos * m.getCols + m.col_pos := rfl
  have e5 : m.moveRight.col_pos
      = if m.col_pos + 1 ≥ m.getCols ∨ m.index + 2 > m.values.length then 0
        else m.col_pos + 1 := rfl
  constructor
  · show m.moveRight.col_pos < m.getCols
    rw [e5]
    by_cases h0 : m.col_pos + 1 ≥ m.getCols ∨ m.index + 2 > m.values.length
    · rw [if_pos h0]
      omega
    · rw [if_neg h0]
      omega
  · show m.row_pos * m.getCols + m.moveRight.col_pos < m.values.length
    rw [e5]
    by_cases h0 : m.col_pos + 1 ≥ m.getCols ∨ m.index + 2 > m.values.length
    · rw [if_pos h0]
      omega
    · rw [if_neg h0]
      push_neg at h0
      omega

/-- `move_left` keeps the cursor on an existing cell, provided the
cursor is not at column 0 of a partially filled last row that is
missing at least two cells (`len mod cols ≥ 2`). -/
theorem ColumnarMenu.moveLeft_valid (m : ColumnarMenu) (h : m.ValidCursor)
    (hside : ¬(m.col_pos = 0 ∧ m.row_pos = m.getRows - 1
               ∧ 2 ≤ m.values.length % m.getCols)) :
    m.moveLeft.ValidCursor := by
  obtain ⟨hcol, hidx⟩ := h
  have hC := m.getCols_pos
  have hL : 0 < m.values.length := by omega
  have hR := m.getRows_pos
  have hlb := m.rows_pred_mul_lt hL
  have hrow := m.row_lt_rows hidx
  have hidx' : m.index = m.row_pos * m.getCols + m.col_pos := rfl
  have hdm := Nat.div_add_mod m.values.length m.getCols
  have hrlt : m.values.length % m.getCols < m.getCols := Nat.mod_lt _ hC
  have hRe := m.getRows_eq hL
  have e5 : m.moveLeft.col_pos
      = if m.col_pos = 0 then
          (if m.index + 1 = m.values.length then 0 else m.getCols - 1)
        else m.col_pos - 1 := rfl
  constructor
  · show m.moveLeft.col_pos < m.getCols
    rw [e5]
    by_cases h1 : m.col_pos = 0
    · rw [if_pos h1]
      by_cases h2 : m.index + 1 = m.values.length
      · rw [if_pos h2]
        omega
      · rw [if_neg h2]
        omega
    · rw [if_neg h1]
      omega
  · show m.row_pos * m.getCols + m.moveLeft.col_pos < m.values.length
    rw [e5]
    by_cases h1 : m.col_pos = 0
    · rw [if_pos h1]
      by_cases h2 : m.index + 1 = m.values.length
      · rw [if_pos h2]
        omega
      · rw [if_neg h2]
        have hcase : m.row_pos ≠ m.getRows - 1 ∨ m.values.length % m.getCols < 2 := by
          by_contra hcon
          push_neg at hcon
          exact hside ⟨h1, hcon.1, hcon.2⟩
        rcases hcase with hne | hr2
        · have hle1 : (m.row_pos + 1) * m.getCols ≤ (m.getRows - 1) * m.getCols :=
            Nat.mul_le_mul_right _ (by omega)
          have hsm : (m.row_pos + 1) * m.getCols
              = m.row_pos * m.getCols + m.getCols := Nat.succ_mul _ _
          omega
        · by_cases hr0 : m.values.length % m.getCols = 0
          · have hRq : m.getRows = m.values.length / m.getCols := by
              rw [hRe, if_pos hr0]
              omega
            have hle1 : (m.row_pos + 1) * m.getCols ≤ m.getRows * m.getCols :=
              Nat.mul_le_mul_right _ (by omega)
            have hsm : (m.row_pos + 1) * m.getCols
                = m.row_pos * m.getCols + m.getCols := Nat.succ_mul _ _
            have hRC : m.getRows * m.getCols
                = m.getCols * (m.values.length / m.getCols) := by
              rw [hRq]
              exact Nat.mul_comm _ _
            omega
          · have hr1 : m.values.length % m.getCols = 1 := by omega
            have hRq : m.getRows = m.values.length / m.getCols + 1 := by
              rw [hRe, if_neg hr0]
            by_cases hrw : m.row_pos = m.getRows - 1
            · exfalso
              have hrq : m.row_pos = m.values.length / m.getCols := by omega
              have hiq : m.row_pos * m.getCols
                  = m.values.length / m.getCols * m.getCols := by rw [hrq]
              have hq2 : m.values.length / m.getCols * m.getCols
                  = m.getCols * (m.values.length / m.getCols) := Nat.mul_comm _ _
              omega
            · have hle1 : (m.row_pos + 1) * m.getCols ≤ (m.getRows - 1) * m.getCols :=
                Nat.mul_le_mul_right _ (by omega)
              have hsm : (m.row_pos + 1) * m.getCols
                  = m.row_pos * m.getCols + m.getCols := Nat.succ_mul _ _
              omega
    · rw [if_neg h1]
      omega

/-- Iterating `move_next` from a valid cursor walks the linear index
`k` steps forward modulo the number of values. -/
theorem ColumnarMenu.moveNext_iterate (m : ColumnarMenu)
    (hcol : m.col_pos < m.getCols) (hidx : m.index < m.values.length) :
    ∀ k : Nat,
    (ColumnarMenu.moveNext^[k] m).values = m.values ∧
    (ColumnarMenu.moveNext^[k] m).working_details = m.working_details ∧
    (ColumnarMenu.moveNext^[k] m).col_pos
      = (m.index + k) % m.values.length % m.getCols ∧
    (ColumnarMenu.moveNext^[k] m).row_pos
      = (m.index + k) % m.values.length / m.getCols := by
  have hC := m.getCols_pos
  have hL : 0 < m.values.length := by omega
  have hidx' : m.index = m.row_pos * m.getCols + m.col_pos := rfl
  intro k
  induction k with
  | zero =>
    refine ⟨rfl, rfl, ?_, ?_⟩
    · simp only [Function.iterate_zero, id_eq, Nat.add_zero]
      rw [Nat.mod_eq_of_lt hidx, hidx', rowColMod hcol]
    · simp only [Function.iterate_zero, id_eq, Nat.add_zero]
      rw [Nat.mod_eq_of_lt hidx, hidx', rowColDiv hC hcol]
  | succ k ih =>
    obtain ⟨ihv, ihw, ihc, ihr⟩ := ih
    have hMC : (ColumnarMenu.moveNext^[k] m).getCols = m.getCols := by
      unfold ColumnarMenu.getCols
      rw [ihw]
    have hMcol : (ColumnarMenu.moveNext^[k] m).col_pos
        < (ColumnarMenu.moveNext^[k] m).getCols := by
      rw [ihc, hMC]
      exact Nat.mod_lt _ hC
    have hMidx4 : (ColumnarMenu.moveNext^[k] m).index
        = (m.index + k) % m.values.length := by
      show (ColumnarMenu.moveNext^[k] m).row_pos * (ColumnarMenu.moveNext^[k] m).getCols
          + (ColumnarMenu.moveNext^[k] m).col_pos = _
      rw [ihc, ihr, hMC, indexRecompose]
    have hMidx : (ColumnarMenu.moveNext^[k] m).index
        < (ColumnarMenu.moveNext^[k] m).values.length := by
      rw [hMidx4, ihv]
      exact Nat.mod_lt _ hL
    obtain ⟨hc', hr'⟩ := (ColumnarMenu.moveNext^[k] m).moveNext_pos hMcol hMidx
    rw [Function.iterate_succ_apply']
    refine ⟨?_, ?_, ?_, ?_⟩
    · rw [ColumnarMenu.moveNext_values, ihv]
    · rw [ColumnarMenu.moveNext_working, ihw]
    · rw [hc', hMidx4, ihv, hMC, Nat.mod_add_mod, Nat.add_assoc]
    · rw [hr', hMidx4, ihv, hMC, Nat.mod_add_mod, Nat.add_assoc]

/-- C1 (counterexample): the claim "every move preserves
`row*columns+column < len(values)`, and a move landing outside resets
to the origin" is false.  With 5 values in 3 columns and the cursor at
`(0, 1)` — a cell holding value number 3, so valid — `move_left` wraps
to the last column of the same row and lands on cell `(2, 1)`, whose
linear index 5 is outside the value list. -/
theorem moveLeftEscapesValues :
    (menuOf 5 3 0 1).row_pos * (menuOf 5 3 0 1).getCols + (menuOf 5 3 0 1).col_pos
      < (menuOf 5 3 0 1).values.length ∧
    ¬((menuOf 5 3 0 1).moveLeft.row_pos * (menuOf 5 3 0 1).moveLeft.getCols
        + (menuOf 5 3 0 1).moveLeft.col_pos
      < (menuOf 5 3 0 1).moveLeft.values.length) := by
  decide

/-- C1 (amended): on a non-empty value list, a cursor on an existing
cell (column inside the column range, linear index inside the values)
stays on an existing cell under `move_next`, `move_previous`,
`move_up`, `move_down` and `move_right`; `move_left` also keeps it on
an existing cell unless the cursor is at column 0 of a partially
filled last row missing at least two cells.  A `move_next` that would
land outside the values resets the cursor to the origin `(0, 0)`,
while a `move_previous` from the origin lands on the cell of the last
value (clamping, not resetting). -/
theorem ColumnarMenu.movesCursorInvariant (m : ColumnarMenu)
    (hne : m.values ≠ []) (hcol : m.col_pos < m.getCols)
    (hidx : m.index < m.values.length) :
    m.moveNext.ValidCursor ∧ m.movePrevious.ValidCursor ∧ m.moveUp.ValidCursor
      ∧ m.moveDown.ValidCursor ∧ m.moveRight.ValidCursor
      ∧ (¬(m.col_pos = 0 ∧ m.row_pos = m.getRows - 1
            ∧ 2 ≤ m.values.length % m.getCols) → m.moveLeft.ValidCursor)
      ∧ (m.index + 1 = m.values.length →
          m.moveNext.col_pos = 0 ∧ m.moveNext.row_pos = 0)
      ∧ (m.col_pos = 0 → m.row_pos = 0 →
          m.movePrevious.index + 1 = m.values.length) := by
  have hC := m.getCols_pos
  have hL : 0 < m.values.length := List.length_pos.mpr hne
  have hidx' : m.index = m.row_pos * m.getCols + m.col_pos := rfl
  have hv : m.ValidCursor := ⟨hcol, hidx⟩
  refine ⟨m.moveNext_valid hv, m.movePrevious_valid hv, m.moveUp_valid hv,
    m.moveDown_valid hv, m.moveRight_valid hv, m.moveLeft_valid hv, ?_, ?_⟩
  · intro hlast
    obtain ⟨hc, hr⟩ := m.moveNext_pos hcol hidx
    constructor
    · rw [hc, hlast, Nat.mod_self, Nat.zero_mod]
    · rw [hr, hlast, Nat.mod_self, Nat.zero_div]
  · intro hc0 hr0
    obtain ⟨hc, hr⟩ := m.movePrevious_pos hcol hidx
    have hi0 : m.index = 0 := by
      rw [hidx', hc0, hr0]
      simp
    have hn : (m.index + m.values.length - 1) % m.values.length
        = m.values.length - 1 := by
      rw [hi0, Nat.zero_add]
      exact Nat.mod_eq_of_lt (by omega)
    have hPidx : m.movePrevious.index = m.values.length - 1 := by
      show m.movePrevious.row_pos * m.movePrevious.getCols
          + m.movePrevious.col_pos = _
      rw [hc, hr, ColumnarMenu.movePrevious_getCols, indexRecompose, hn]
    omega

/-- C1 (witness): the amended statement instantiated at a concrete menu
(5 values, 3 columns, cursor `(1, 1)`). -/
theorem movesCursorInvariantWitness :
    (menuOf 5 3 1 1).values ≠ []
    ∧ (menuOf 5 3 1 1).col_pos < (menuOf 5 3 1 1).getCols
    ∧ (menuOf 5 3 1 1).index < (menuOf 5 3 1 1).values.length
    ∧ ((menuOf 5 3 1 1).moveNext.ValidCursor
      ∧ (menuOf 5 3 1 1).movePrevious.ValidCursor
      ∧ (menuOf 5 3 1 1).moveUp.ValidCursor
      ∧ (menuOf 5 3 1 1).moveDown.ValidCursor
      ∧ (menuOf 5 3 1 1).moveRight.ValidCursor
      ∧ (¬((menuOf 5 3 1 1).col_pos = 0
            ∧ (menuOf 5 3 1 1).row_pos = (menuOf 5 3 1 1).getRows - 1
            ∧ 2 ≤ (menuOf 5 3 1 1).values.length % (menuOf 5 3 1 1).getCols) →
          (menuOf 5 3 1 1).moveLeft.ValidCursor)
      ∧ ((menuOf 5 3 1 1).index + 1 = (menuOf 5 3 1 1).values.length →
          (menuOf 5 3 1 1).moveNext.col_pos = 0
            ∧ (menuOf 5 3 1 1).moveNext.row_pos = 0)
      ∧ ((menuOf 5 3 1 1).col_pos = 0 → (menuOf 5 3 1 1).row_pos = 0 →
          (menuOf 5 3 1 1).movePrevious.index + 1
            = (menuOf 5 3 1 1).values.length)) :=
  ⟨by decide, by decide, by decide,
    ColumnarMenu.movesCursorInvariant (menuOf 5 3 1 1) (by decide) (by decide)
      (by decide)⟩

/-- C3 (counterexample): "previous element is the exact inverse of next
element for every position reachable by navigation from `(0,0)`" is
false.  With 5 values in 3 columns, starting from the origin the moves
down-then-left reach the cell `(2, 1)` (a nonexistent cell with linear
index 5, reachable because `move_left` wraps through it); from there
`move_next` followed by `move_previous` ends at `(1, 1)` instead. -/
theorem nextPreviousNotInverseReachable :
    (menuOf 5 3 0 0).col_pos = 0 ∧ (menuOf 5 3 0 0).row_pos = 0 ∧
    ¬((menuOf 5 3 0 0).moveDown.moveLeft.moveNext.movePrevious.col_pos
        = (menuOf 5 3 0 0).moveDown.moveLeft.col_pos ∧
      (menuOf 5 3 0 0).moveDown.moveLeft.moveNext.movePrevious.row_pos
        = (menuOf 5 3 0 0).moveDown.moveLeft.row_pos) := by
  decide

/-- C3 (amended): on a non-empty value list, for every cursor that sits
on an existing cell (column inside the column range, linear index
inside the values), `move_previous` after `move_next` returns the
cursor to where it started, and `move_next` after `move_previous` does
likewise. -/
theorem ColumnarMenu.nextPreviousInverseValid (m : ColumnarMenu)
    (hne : m.values ≠ []) (hcol : m.col_pos < m.getCols)
    (hidx : m.index < m.values.length) :
    (m.moveNext.movePrevious.col_pos = m.col_pos ∧
     m.moveNext.movePrevious.row_pos = m.row_pos) ∧
    (m.movePrevious.moveNext.col_pos = m.col_pos ∧
     m.movePrevious.moveNext.row_pos = m.row_pos) := by
  have hC := m.getCols_pos
  have hL : 0 < m.values.length := List.length_pos.mpr hne
  have hidx' : m.index = m.row_pos * m.getCols + m.col_pos := rfl
  obtain ⟨hNc, hNr⟩ := m.moveNext_pos hcol hidx
  obtain ⟨hNcv, hNiv⟩ := m.moveNext_valid ⟨hcol, hidx⟩
  obtain ⟨hPc, hPr⟩ := m.movePrevious_pos hcol hidx
  obtain ⟨hPcv, hPiv⟩ := m.movePrevious_valid ⟨hcol, hidx⟩
  have hNidx : m.moveNext.index = (m.index + 1) % m.values.length := by
    show m.moveNext.row_pos * m.moveNext.getCols + m.moveNext.col_pos = _
    rw [hNc, hNr, ColumnarMenu.moveNext_getCols, indexRecompose]
  have hPidx : m.movePrevious.index
      = (m.index + m.values.length - 1) % m.values.length := by
    show m.movePrevious.row_pos * m.movePrevious.getCols
        + m.movePrevious.col_pos = _
    rw [hPc, hPr, ColumnarMenu.movePrevious_getCols, indexRecompose]
  obtain ⟨hc2, hr2⟩ := m.moveNext.movePrevious_pos hNcv hNiv
  obtain ⟨hc3, hr3⟩ := m.movePrevious.moveNext_pos hPcv hPiv
  have key1 : (m.moveNext.index + m.moveNext.values.length - 1)
      % m.moveNext.values.length = m.index := by
    rw [hNidx, ColumnarMenu.moveNext_values]
    by_cases hiL : m.index + 1 = m.values.length
    · have hlt : m.values.length - 1 < m.values.length := by omega
      rw [hiL, Nat.mod_self, Nat.zero_add, Nat.mod_eq_of_lt hlt]
      omega
    · have hlt : m.index + 1 < m.values.length := by omega
      rw [Nat.mod_eq_of_lt hlt]
      have h' : m.index + 1 + m.values.length - 1 = m.index + m.values.length := by
        omega
      rw [h', Nat.add_mod_right]
      exact Nat.mod_eq_of_lt hidx
  have key2 : (m.movePrevious.index + 1) % m.movePrevious.values.length
      = m.index := by
    rw [hPidx, ColumnarMenu.movePrevious_values]
    by_cases hi0 : m.index = 0
    · have hlt : m.values.length - 1 < m.values.length := by omega
      rw [hi0, Nat.zero_add, Nat.mod_eq_of_lt hlt]
      have h' : m.values.length - 1 + 1 = m.values.length := by omega
      rw [h', Nat.mod_self]
    · have hlt : m.index - 1 < m.values.length := by omega
      have h' : m.index + m.values.length - 1
          = (m.index - 1) + m.values.length := by omega
      rw [h', Nat.add_mod_right, Nat.mod_eq_of_lt hlt]
      have h'' : m.index - 1 + 1 = m.index := by omega
      rw [h'', Nat.mod_eq_of_lt hidx]
  constructor
  · constructor
    · rw [hc2, key1, ColumnarMenu.moveNext_getCols, hidx', rowColMod hcol]
    · rw [hr2, key1, ColumnarMenu.moveNext_getCols, hidx', rowColDiv hC hcol]
  · constructor
    · rw [hc3, key2, ColumnarMenu.movePrevious_getCols, hidx', rowColMod hcol]
    · rw [hr3, key2, ColumnarMenu.movePrevious_getCols, hidx', rowColDiv hC hcol]

/-- C3 (witness): the amended statement instantiated at a concrete menu
(5 values, 3 columns, cursor `(0, 1)`). -/
theorem nextPreviousInverseValidWitness :
    (menuOf 5 3 0 1).values ≠ []
    ∧ (menuOf 5 3 0 1).col_pos < (menuOf 5 3 0 1).getCols
    ∧ (menuOf 5 3 0 1).index < (menuOf 5 3 0 1).values.length
    ∧ (((menuOf 5 3 0 1).moveNext.movePrevious.col_pos = (menuOf 5 3 0 1).col_pos
        ∧ (menuOf 5 3 0 1).moveNext.movePrevious.row_pos = (menuOf 5 3 0 1).row_pos)
      ∧ ((menuOf 5 3 0 1).movePrevious.moveNext.col_pos = (menuOf 5 3 0 1).col_pos
        ∧ (menuOf 5 3 0 1).movePrevious.moveNext.row_pos
            = (menuOf 5 3 0 1).row_pos)) :=
  ⟨by decide, by decide, by decide,
    ColumnarMenu.nextPreviousInverseValid (menuOf 5 3 0 1) (by decide) (by decide)
      (by decide)⟩

/-- C4 (counterexample): "applying next-element exactly `rows*columns`
times returns the cursor to its start" is false.  With 3 values in 2
columns the grid is 2 rows of 2 columns (`rows*columns = 4`), yet four
`move_next` steps from the origin end at `(1, 0)`: the walk wraps after
the third value, so only multiples of `len(values) = 3` return to the
start. -/
theorem nextCycleRowsColsFails :
    (menuOf 3 2 0 0).getRows * (menuOf 3 2 0 0).getCols = 4 ∧
    ¬((ColumnarMenu.moveNext^[(menuOf 3 2 0 0).getRows * (menuOf 3 2 0 0).getCols]
          (menuOf 3 2 0 0)).col_pos = (menuOf 3 2 0 0).col_pos ∧
      (ColumnarMenu.moveNext^[(menuOf 3 2 0 0).getRows * (menuOf 3 2 0 0).getCols]
          (menuOf 3 2 0 0)).row_pos = (menuOf 3 2 0 0).row_pos) := by
  decide

/-- C4 (amended): on a non-empty value list, from any cursor on an
existing cell, every number of `move_next` steps keeps the derived
linear index strictly below `len(values)`, and applying `move_next`
exactly `len(values)` times returns the cursor to its starting
position. -/
theorem ColumnarMenu.nextCycleValuesLength (m : ColumnarMenu)
    (hne : m.values ≠ []) (hcol : m.col_pos < m.getCols)
    (hidx : m.index < m.values.length) :
    (∀ k : Nat, (ColumnarMenu.moveNext^[k] m).index < m.values.length) ∧
    (ColumnarMenu.moveNext^[m.values.length] m).col_pos = m.col_pos ∧
    (ColumnarMenu.moveNext^[m.values.length] m).row_pos = m.row_pos := by
  have hC := m.getCols_pos
  have hL : 0 < m.values.length := List.length_pos.mpr hne
  have hidx' : m.index = m.row_pos * m.getCols + m.col_pos := rfl
  have hIter := m.moveNext_iterate hcol hidx
  refine ⟨?_, ?_, ?_⟩
  · intro k
    obtain ⟨ihv, ihw, ihc, ihr⟩ := hIter k
    have hMC : (ColumnarMenu.moveNext^[k] m).getCols = m.getCols := by
      unfold ColumnarMenu.getCols
      rw [ihw]
    have hMidx4 : (ColumnarMenu.moveNext^[k] m).index
        = (m.index + k) % m.values.length := by
      show (ColumnarMenu.moveNext^[k] m).row_pos
          * (ColumnarMenu.moveNext^[k] m).getCols
          + (ColumnarMenu.moveNext^[k] m).col_pos = _
      rw [ihc, ihr, hMC, indexRecompose]
    rw [hMidx4]
    exact Nat.mod_lt _ hL
  · obtain ⟨ihv, ihw, ihc, ihr⟩ := hIter m.values.length
    rw [ihc, Nat.add_mod_right, Nat.mod_eq_of_lt hidx, hidx', rowColMod hcol]
  · obtain ⟨ihv, ihw, ihc, ihr⟩ := hIter m.values.length
    rw [ihr, Nat.add_mod_right, Nat.mod_eq_of_lt hidx, hidx', rowColDiv hC hcol]

/-- C4 (witness): the amended statement instantiated at a concrete menu
(3 values, 2 columns, cursor at the origin): three steps cycle back. -/
theorem nextCycleValuesLengthWitness :
    (menuOf 3 2 0 0).values ≠ []
    ∧ (menuOf 3 2 0 0).col_pos < (menuOf 3 2 0 0).getCols
    ∧ (menuOf 3 2 0 0).index < (menuOf 3 2 0 0).values.length
    ∧ ((∀ k : Nat, (ColumnarMenu.moveNext^[k] (menuOf 3 2 0 0)).index
          < (menuOf 3 2 0 0).values.length)
      ∧ (ColumnarMenu.moveNext^[(menuOf 3 2 0 0).values.length]
            (menuOf 3 2 0 0)).col_pos = (menuOf 3 2 0 0).col_pos
      ∧ (ColumnarMenu.moveNext^[(menuOf 3 2 0 0).values.length]
            (menuOf 3 2 0 0)).row_pos = (menuOf 3 2 0 0).row_pos) :=
  ⟨by decide, by decide, by decide,
    ColumnarMenu.nextCycleValuesLength (menuOf 3 2 0 0) (by decide) (by decide)
      (by decide)⟩

/-- C9: when a suggestion is selected, `replace_in_buffer` splices its
value (with one trailing space when `append_whitespace` is set) over
the suggestion's span with both endpoints clamped to the buffer
length, and sets the insertion point to the old insertion point plus
the inserted value's length minus the clamped span's length, the
subtraction saturating at zero. -/
theorem ColumnarMenu.replaceInBuffer_spec (m : ColumnarMenu) (editor : Editor)
    (s : Suggestion) (h : m.getValue = some s) :
    m.replaceInBuffer editor =
      { line_buffer :=
        { buffer :=
            editor.getBuffer.take (min s.span.start editor.getBuffer.length)
              ++ (if s.append_whitespace then s.value ++ [' '] else s.value)
              ++ editor.getBuffer.drop (min s.span.stop editor.getBuffer.length),
          insertion_point :=
            editor.insertionPoint
              + (if s.append_whitespace then s.value ++ [' '] else s.value).length
              - (min s.span.stop editor.getBuffer.length
                 - min s.span.start editor.getBuffer.length) } } := by
  unfold ColumnarMenu.replaceInBuffer
  rw [h]
  rfl

/-- C9 (witness): the splice at a concrete menu and editor; the span
`[1, 9)` is clamped to the three-character buffer, the value gets its
trailing space, and the caret moves from 3 to 4. -/
theorem replaceInBufferSpecWitness :
    sampleSelMenu.getValue = some sampleSelSug ∧
    sampleSelMenu.replaceInBuffer sampleEditor =
      { line_buffer := { buffer := ['x', 'a', 'b', ' '], insertion_point := 4 } } :=
  ⟨by decide,
    ColumnarMenu.replaceInBuffer_spec sampleSelMenu sampleEditor sampleSelSug
      (by decide)⟩

/-- C10: with an empty value list, or a cursor whose linear index is
not a valid index into the values, `replace_in_buffer` leaves the
editor completely unchanged — a silent no-op. -/
theorem ColumnarMenu.replaceInBuffer_noop (m : ColumnarMenu) (editor : Editor)
    (h : m.values = [] ∨ m.values.length ≤ m.index) :
    m.replaceInBuffer editor = editor := by
  have hnone : m.getValue = none := by
    unfold ColumnarMenu.getValue
    rcases h with h | h
    · rw [h]
      rfl
    · exact List.getElem?_eq_none h
  unfold ColumnarMenu.replaceInBuffer
  rw [hnone]

/-- C10 (witness): the no-op at a concrete empty menu and editor. -/
theorem replaceInBufferNoopWitness :
    (defaultColumnarMenu.values = []
      ∨ defaultColumnarMenu.values.length ≤ defaultColumnarMenu.index) ∧
    defaultColumnarMenu.replaceInBuffer sampleEditor = sampleEditor :=
  ⟨Or.inl rfl,
    ColumnarMenu.replaceInBuffer_noop defaultColumnarMenu sampleEditor (Or.inl rfl)⟩

/-! ## Layout recomputation and event dispatch -/

theorem ColumnarMenu.updateValues_working (m : ColumnarMenu) (editor : Editor)
    (complete : List Char → Nat → List Suggestion) :
    (m.updateValues editor complete).working_details = m.working_details := by
  simp only [ColumnarMenu.updateValues]
  repeat' split
  all_goals rfl

@[simp] theorem ColumnarMenu.moveUp_working (m : ColumnarMenu) :
    m.moveUp.working_details = m.working_details := rfl

@[simp] theorem ColumnarMenu.moveDown_working (m : ColumnarMenu) :
    m.moveDown.working_details = m.working_details := rfl

@[simp] theorem ColumnarMenu.moveLeft_working (m : ColumnarMenu) :
    m.moveLeft.working_details = m.working_details := rfl

@[simp] theorem ColumnarMenu.moveRight_working (m : ColumnarMenu) :
    m.moveRight.working_details = m.working_details := rfl

/-- Event routing never touches the working layout: the moves only
change the cursor, activation and edit only change the activity flag,
cursor, snapshot and values. -/
theorem ColumnarMenu.routeEvent_working (m : ColumnarMenu) (editor : Editor)
    (complete : List Char → Nat → List Suggestion) (e : MenuEvent) :
    (m.routeEvent editor complete e).working_details = m.working_details := by
  cases e <;>
    simp only [ColumnarMenu.routeEvent, ColumnarMenu.moveNext_working,
      ColumnarMenu.movePrevious_working, ColumnarMenu.moveUp_working,
      ColumnarMenu.moveDown_working, ColumnarMenu.moveLeft_working,
      ColumnarMenu.moveRight_working]
  · split
    · rw [ColumnarMenu.updateValues_working]
    · rfl
  · split
    · rw [ColumnarMenu.updateValues_working]
    · rfl

/-- If some suggestion carries a description, the layout recomputation
forces one column of the full screen width and records the longest
suggestion value. -/
theorem layoutRecompute_description (m : ColumnarMenu) (screenWidth : Nat)
    (hdesc : ∃ s ∈ m.values, s.description.isSome = true) :
    layoutRecompute m screenWidth
      = some { m with working_details := ⟨1, screenWidth⟩,
                      longest_suggestion := layoutLongest m.values } := by
  unfold layoutRecompute
  rw [if_pos (List.any_eq_true.mpr hdesc)]

/-- If no suggestion carries a description and the default width is
defined and the resulting column width fits `u16` and is nonzero, the
layout recomputation succeeds and sets
`col_width = max(max_width, default_width)`. -/
theorem layoutRecompute_no_description (m : ColumnarMenu) (screenWidth dw : Nat)
    (hnodesc : ∀ s ∈ m.values, s.description = none)
    (hdw : layoutDefaultWidth m.default_details screenWidth = some dw)
    (hlow : 1 ≤ max (layoutMaxWidth m.values m.default_details.col_padding) dw)
    (hhigh : max (layoutMaxWidth m.values m.default_details.col_padding) dw ≤ 65535) :
    ∃ m', layoutRecompute m screenWidth = some m'
      ∧ m'.working_details.col_width
          = (if layoutMaxWidth m.values m.default_details.col_padding > dw then
               layoutMaxWidth m.values m.default_details.col_padding
             else dw)
      ∧ m'.values = m.values ∧ m'.default_details = m.default_details := by
  have hB : ¬ (m.values.any (fun s => s.description.isSome) = true) := by
    rw [List.any_eq_true]
    rintro ⟨s, hs, hsome⟩
    rw [hnodesc s hs] at hsome
    cases hsome
  have hcweq : (if layoutMaxWidth m.values m.default_details.col_padding > dw then
                  layoutMaxWidth m.values m.default_details.col_padding
                else dw)
      = max (layoutMaxWidth m.values m.default_details.col_padding) dw := by
    rw [Nat.max_def]
    split_ifs <;> omega
  have hlt : max (layoutMaxWidth m.values m.default_details.col_padding) dw
      < 65536 := by omega
  have hmod : (if layoutMaxWidth m.values m.default_details.col_padding > dw then
                 layoutMaxWidth m.values m.default_details.col_padding
               else dw) % 65536
      = max (layoutMaxWidth m.values m.default_details.col_padding) dw := by
    rw [hcweq]
    exact Nat.mod_eq_of_lt hlt
  unfold layoutRecompute
  rw [if_neg hB, hdw]
  dsimp only
  rw [hmod, hcweq, if_neg (by omega)]
  exact ⟨_, rfl, rfl, rfl, rfl⟩

/-- C5 (counterexample): with a configured default column count of 0
and no fixed column width, processing a pending event divides the
screen width by zero (a fault), so `update_working_details` does not
complete. -/
theorem updateWorkingDetailsFault :
    faultMenu.updateWorkingDetails sampleEditor emptyCompleter 80 = none := by
  decide

/-- C5 (amended): processing a pending event completes without fault
and leaves the effective column count (`get_cols`) at least 1,
provided the layout recomputation cannot divide by zero: either some
suggestion carries a description, or the default width is defined
(a fixed width, or a default column count of at least 1) and the
resulting column width is between 1 and 65535 (the `usize as u16`
divisor cast). -/
theorem ColumnarMenu.updateWorkingDetails_total (m : ColumnarMenu)
    (editor : Editor) (complete : List Char → Nat → List Suggestion)
    (screenWidth : Nat) (e : MenuEvent) (hev : m.event = some e)
    (h : (∃ s ∈ m.values, s.description.isSome = true)
      ∨ ∃ dw, layoutDefaultWidth m.default_details screenWidth = some dw
          ∧ 1 ≤ max (layoutMaxWidth m.values m.default_details.col_padding) dw
          ∧ max (layoutMaxWidth m.values m.default_details.col_padding) dw ≤ 65535) :
    ∃ m', m.updateWorkingDetails editor complete screenWidth = some m'
      ∧ 1 ≤ m'.getCols := by
  unfold ColumnarMenu.updateWorkingDetails
  rw [hev]
  dsimp only
  by_cases hex : (({ m with event := none } : ColumnarMenu).values.any
      (fun s => s.description.isSome)) = true
  · rw [layoutRecompute_description { m with event := none } screenWidth
      (List.any_eq_true.mp hex)]
    exact ⟨_, rfl, ColumnarMenu.getCols_pos _⟩
  · have hnodesc : ∀ s ∈ m.values, s.description = none := by
      intro s hs
      cases hd : s.description with
      | none => rfl
      | some d =>
        exfalso
        apply hex
        rw [List.any_eq_true]
        exact ⟨s, hs, by rw [hd]; rfl⟩
    rcases h with hdesc | ⟨dw, hdw, hlow, hhigh⟩
    · exfalso
      apply hex
      rw [List.any_eq_true]
      exact hdesc
    · obtain ⟨m', hm', _, _, _⟩ :=
        layoutRecompute_no_description { m with event := none } screenWidth dw
          hnodesc hdw hlow hhigh
      rw [hm']
      exact ⟨_, rfl, ColumnarMenu.getCols_pos _⟩

/-- C5 (witness): the amended statement instantiated at a concrete
menu (default configuration, one suggestion, pending event, screen
width 80). -/
theorem updateWorkingDetailsTotalWitness :
    nodescMenu.event = some MenuEvent.NextElement ∧
    ((∃ s ∈ nodescMenu.values, s.description.isSome = true)
      ∨ ∃ dw, layoutDefaultWidth nodescMenu.default_details 80 = some dw
          ∧ 1 ≤ max (layoutMaxWidth nodescMenu.values
                      nodescMenu.default_details.col_padding) dw
          ∧ max (layoutMaxWidth nodescMenu.values
                  nodescMenu.default_details.col_padding) dw ≤ 65535) ∧
    ∃ m', nodescMenu.updateWorkingDetails sampleEditor emptyCompleter 80 = some m'
      ∧ 1 ≤ m'.getCols :=
  ⟨rfl, Or.inr ⟨20, by decide, by decide, by decide⟩,
    ColumnarMenu.updateWorkingDetails_total nodescMenu sampleEditor emptyCompleter
      80 MenuEvent.NextElement rfl (Or.inr ⟨20, by decide, by decide, by decide⟩)⟩

/-- C6: when at least one suggestion carries a description, the layout
recomputation performed on event dispatch sets the working column
count to exactly 1 and the working column width to the reported screen
width, whatever the configured defaults. -/
theorem ColumnarMenu.updateWorkingDetails_description (m : ColumnarMenu)
    (editor : Editor) (complete : List Char → Nat → List Suggestion)
    (screenWidth : Nat) (e : MenuEvent) (hev : m.event = some e)
    (hdesc : ∃ s ∈ m.values, s.description.isSome = true) :
    ∃ m', m.updateWorkingDetails editor complete screenWidth = some m'
      ∧ m'.working_details.columns = 1
      ∧ m'.working_details.col_width = screenWidth := by
  unfold ColumnarMenu.updateWorkingDetails
  rw [hev]
  dsimp only
  rw [layoutRecompute_description { m with event := none } screenWidth hdesc]
  refine ⟨_, rfl, ?_, ?_⟩
  · rw [ColumnarMenu.routeEvent_working]
  · rw [ColumnarMenu.routeEvent_working]

/-- C6 (witness): the single-column layout at a concrete menu whose
suggestion has a description. -/
theorem updateWorkingDetailsDescriptionWitness :
    descMenu.event = some MenuEvent.NextElement ∧
    (∃ s ∈ descMenu.values, s.description.isSome = true) ∧
    ∃ m', descMenu.updateWorkingDetails sampleEditor emptyCompleter 80 = some m'
      ∧ m'.working_details.columns = 1
      ∧ m'.working_details.col_width = 80 :=
  ⟨rfl, ⟨descSug, by decide, rfl⟩,
    ColumnarMenu.updateWorkingDetails_description descMenu sampleEditor
      emptyCompleter 80 MenuEvent.NextElement rfl ⟨descSug, by decide, rfl⟩⟩

/-! ## The `max_width` fold computes a maximum -/

theorem layoutMaxWidthAux_ge (pad : Nat) (l : List Suggestion) :
    ∀ acc : Nat,
      acc ≤ l.foldl (fun acc s =>
        let strLen := s.value.length + pad
        if strLen > acc then strLen else acc) acc := by
  induction l with
  | nil => intro acc; exact Nat.le_refl _
  | cons a t ih =>
    intro acc
    simp only [List.foldl_cons]
    refine Nat.le_trans ?_ (ih _)
    dsimp only
    split_ifs with h <;> omega

theorem layoutMaxWidthAux_le_elem (pad : Nat) (l : List Suggestion) :
    ∀ (acc : Nat), ∀ s ∈ l,
      s.value.length + pad ≤ l.foldl (fun acc s =>
        let strLen := s.value.length + pad
        if strLen > acc then strLen else acc) acc := by
  induction l with
  | nil =>
    intro acc s hs
    cases hs
  | cons a t ih =>
    intro acc s hs
    simp only [List.foldl_cons]
    rcases List.mem_cons.mp hs with rfl | hmem
    · refine Nat.le_trans ?_ (layoutMaxWidthAux_ge pad t _)
      dsimp only
      split_ifs with h <;> omega
    · exact ih _ s hmem

theorem layoutMaxWidthAux_cases (pad : Nat) (l : List Suggestion) :
    ∀ acc : Nat,
      l.foldl (fun acc s =>
        let strLen := s.value.length + pad
        if strLen > acc then strLen else acc) acc = acc
      ∨ ∃ s ∈ l,
          l.foldl (fun acc s =>
            let strLen := s.value.length + pad
            if strLen > acc then strLen else acc) acc
            = s.value.length + pad := by
  induction l with
  | nil => intro acc; exact Or.inl rfl
  | cons a t ih =>
    intro acc
    simp only [List.foldl_cons]
    rcases ih (if a.value.length + pad > acc then a.value.length + pad else acc)
      with h1 | ⟨s, hs, heq⟩
    · by_cases hc : a.value.length + pad > acc
      · right
        refine ⟨a, List.mem_cons_self a t, ?_⟩
        rw [h1, if_pos hc]
      · left
        rw [h1, if_neg hc]
    · right
      exact ⟨s, List.mem_cons_of_mem a hs, heq⟩

/-- Every suggestion's padded length is bounded by `max_width`. -/
theorem layoutMaxWidth_ge (values : List Suggestion) (pad : Nat) :
    ∀ s ∈ values, s.value.length + pad ≤ layoutMaxWidth values pad :=
  fun s hs => layoutMaxWidthAux_le_elem pad values 0 s hs

/-- `max_width` is 0 or the padded length of some suggestion. -/
theorem layoutMaxWidth_cases (values : List Suggestion) (pad : Nat) :
    layoutMaxWidth values pad = 0
    ∨ ∃ s ∈ values, layoutMaxWidth values pad = s.value.length + pad :=
  layoutMaxWidthAux_cases pad values 0

/-- C7: when no suggestion carries a description (and the layout
recomputation is well defined: the default width exists and the
resulting width fits a nonzero `u16`), the working column width is set
to the default width — the configured fixed width, or screen width
divided by the default column count — whenever no suggestion's padded
value length exceeds it, and otherwise to the largest padded value
length over all suggestions. -/
theorem ColumnarMenu.updateWorkingDetails_no_description (m : ColumnarMenu)
    (editor : Editor) (complete : List Char → Nat → List Suggestion)
    (screenWidth dw : Nat) (e : MenuEvent) (hev : m.event = some e)
    (hnodesc : ∀ s ∈ m.values, s.description = none)
    (hdw : layoutDefaultWidth m.default_details screenWidth = some dw)
    (hlow : 1 ≤ max (layoutMaxWidth m.values m.default_details.col_padding) dw)
    (hhigh : max (layoutMaxWidth m.values m.default_details.col_padding) dw ≤ 65535) :
    ∃ m', m.updateWorkingDetails editor complete screenWidth = some m'
      ∧ ((∀ s ∈ m.values, s.value.length + m.default_details.col_padding ≤ dw) →
          m'.working_details.col_width = dw)
      ∧ ((∃ s ∈ m.values, dw < s.value.length + m.default_details.col_padding) →
          (∃ s ∈ m.values,
             m'.working_details.col_width
               = s.value.length + m.default_details.col_padding)
          ∧ ∀ s ∈ m.values,
              s.value.length + m.default_details.col_padding
                ≤ m'.working_details.col_width) := by
  unfold ColumnarMenu.updateWorkingDetails
  rw [hev]
  dsimp only
  obtain ⟨m2, hm2, hcw, hvals, hdd⟩ :=
    layoutRecompute_no_description { m with event := none } screenWidth dw
      hnodesc hdw hlow hhigh
  rw [show ({ m with event := none } : ColumnarMenu).values = m.values from rfl,
    show ({ m with event := none } : ColumnarMenu).default_details
      = m.default_details from rfl] at hcw
  rw [hm2]
  refine ⟨_, rfl, ?_, ?_⟩
  · intro hall
    have hle : layoutMaxWidth m.values m.default_details.col_padding ≤ dw := by
      rcases layoutMaxWidth_cases m.values m.default_details.col_padding
        with h0 | ⟨s, hs, heq⟩
      · omega
      · have := hall s hs
        omega
    have hcond : ¬ (layoutMaxWidth m.values m.default_details.col_padding > dw) := by
      omega
    rw [ColumnarMenu.routeEvent_working, hcw, if_neg hcond]
  · rintro ⟨s0, hs0, hgt⟩
    have hge0 := layoutMaxWidth_ge m.values m.default_details.col_padding s0 hs0
    have hcond : layoutMaxWidth m.values m.default_details.col_padding > dw := by
      omega
    constructor
    · rcases layoutMaxWidth_cases m.values m.default_details.col_padding
        with h0 | ⟨s, hs, heq⟩
      · exfalso
        omega
      · refine ⟨s, hs, ?_⟩
        rw [ColumnarMenu.routeEvent_working, hcw, if_pos hcond]
        exact heq
    · intro s hs
      have hge := layoutMaxWidth_ge m.values m.default_details.col_padding s hs
      rw [ColumnarMenu.routeEvent_working, hcw, if_pos hcond]
      exact hge

/-- C7 (witness): the default-width branch at a concrete menu (one
one-character suggestion, padding 2, default 4 columns, screen width
80, so the default width 20 wins). -/
theorem updateWorkingDetailsNoDescriptionWitness :
    nodescMenu.event = some MenuEvent.NextElement ∧
    (∀ s ∈ nodescMenu.values, s.description = none) ∧
    layoutDefaultWidth nodescMenu.default_details 80 = some 20 ∧
    1 ≤ max (layoutMaxWidth nodescMenu.values
              nodescMenu.default_details.col_padding) 20 ∧
    max (layoutMaxWidth nodescMenu.values
          nodescMenu.default_details.col_padding) 20 ≤ 65535 ∧
    ∃ m', nodescMenu.updateWorkingDetails sampleEditor emptyCompleter 80 = some m'
      ∧ ((∀ s ∈ nodescMenu.values,
            s.value.length + nodescMenu.default_details.col_padding ≤ 20) →
          m'.working_details.col_width = 20)
      ∧ ((∃ s ∈ nodescMenu.values,
            20 < s.value.length + nodescMenu.default_details.col_padding) →
          (∃ s ∈ nodescMenu.values,
             m'.working_details.col_width
               = s.value.length + nodescMenu.default_details.col_padding)
          ∧ ∀ s ∈ nodescMenu.values,
              s.value.length + nodescMenu.default_details.col_padding
                ≤ m'.working_details.col_width) :=
  ⟨rfl, by decide, by decide, by decide, by decide,
    ColumnarMenu.updateWorkingDetails_no_description nodescMenu sampleEditor
      emptyCompleter 80 20 MenuEvent.NextElement rfl (by decide) (by decide)
      (by decide) (by decide)⟩

/-! ## Partial completion -/

/-- C2 (counterexample): the claim is false as stated.  When the
suggestions share a non-empty prefix but the representative
suggestion's span reaches past the current buffer — the buffer shrank
after the suggestions were produced — `can_partially_complete` neither
returns `false` with the editor unchanged nor splices and returns
`true`: the direct slice `&editor.get_buffer()[span.start..span.end]`
faults (`none`).  Here the suggestions share the prefix `build` with
span `[0, 5)`, but the buffer is the single character `a`. -/
theorem canPartiallyCompleteSliceFault :
    staleMenu.values ≠ [] ∧
    sharedMatching staleMenu.values ≠ [] ∧
    shortEditor.getBuffer.length < bSug1Stale.span.stop ∧
    staleMenu.canPartiallyComplete shortEditor emptyCompleter = none := by
  decide

/-- C2 (amended): on the current suggestions, when a representative
exists but its span is inverted or reaches past the current buffer,
the covered-text slice of `can_partially_complete` faults; otherwise
it returns `false` and leaves the editor (buffer and insertion point)
unchanged whenever the suggestions share no common prefix (no
representative: the value list is empty), the shared prefix is empty,
or the shared prefix does not start with the buffer text covered by
the representative suggestion's span; in every other case it returns
`true` and splices the shared prefix into the buffer over that span. -/
theorem ColumnarMenu.canPartiallyComplete_spec (m : ColumnarMenu)
    (editor : Editor) (complete : List Char → Nat → List Suggestion) :
    (∀ v rest, m.values = v :: rest →
        (v.span.stop < v.span.start
          ∨ editor.getBuffer.length < v.span.stop) →
        m.canPartiallyComplete editor complete = none)
    ∧ ((m.values = []
        ∨ ∃ covered, coveredText m.values editor = some covered
            ∧ (sharedMatching m.values = []
               ∨ covered.isPrefixOf (sharedMatching m.values) = false)) →
      m.canPartiallyComplete editor complete = some (false, m, editor))
    ∧ (∀ v rest covered, m.values = v :: rest →
        coveredText m.values editor = some covered →
        sharedMatching m.values ≠ [] →
        covered.isPrefixOf (sharedMatching m.values) = true →
        ∃ r, m.canPartiallyComplete editor complete = some r
          ∧ r.1 = true
          ∧ r.2.2.getBuffer
              = editor.getBuffer.take v.span.start
                ++ sharedMatching m.values
                ++ editor.getBuffer.drop v.span.stop) := by
  rcases hval : m.values with _ | ⟨v, rest⟩
  · refine ⟨?_, ?_, ?_⟩
    · intro v' rest' hval'
      simp at hval'
    · intro _
      unfold ColumnarMenu.canPartiallyComplete
      rw [hval]
      rfl
    · intro v' rest' covered hval'
      simp at hval'
  · have hshared : sharedMatching (v :: rest)
        = v.value.take (min (rest.foldl
            (fun n s => min n (lcpLen v.value s.value)) v.value.length)
          v.value.length) := rfl
    unfold ColumnarMenu.canPartiallyComplete
    rw [hval]
    simp only [findCommonString]
    by_cases hrange : v.span.stop < v.span.start
        ∨ editor.getBuffer.length < v.span.stop
    · rw [if_pos hrange]
      have hcovnone : coveredText (v :: rest) editor = none := by
        unfold coveredText
        simp only [findCommonString]
        rw [if_pos hrange]
      refine ⟨?_, ?_, ?_⟩
      · intro _ _ _ _
        rfl
      · intro h
        exfalso
        rcases h with h | ⟨covered, hcov, _⟩
        · exact List.noConfusion h
        · rw [hcovnone] at hcov
          cases hcov
      · intro v' rest' covered hval' hcov
        exfalso
        rw [hcovnone] at hcov
        cases hcov
    · rw [if_neg hrange]
      have hcovsome : coveredText (v :: rest) editor
          = some ((editor.getBuffer.drop v.span.start).take
              (v.span.stop - v.span.start)) := by
        unfold coveredText
        simp only [findCommonString]
        rw [if_neg hrange]
      by_cases hcond :
          v.value.take (min (rest.foldl
              (fun n s => min n (lcpLen v.value s.value)) v.value.length)
            v.value.length) ≠ []
          ∧ ((editor.getBuffer.drop v.span.start).take
              (v.span.stop - v.span.start)).isPrefixOf
            (v.value.take (min (rest.foldl
                (fun n s => min n (lcpLen v.value s.value)) v.value.length)
              v.value.length)) = true
      · rw [if_pos hcond]
        refine ⟨?_, ?_, ?_⟩
        · intro v' rest' hval' hbad
          exfalso
          injection hval' with h1 h2
          subst h1
          exact hrange hbad
        · intro h
          exfalso
          rcases h with h | ⟨covered, hcov, hfail⟩
          · exact List.noConfusion h
          · rw [hcovsome] at hcov
            injection hcov with hc
            subst hc
            rcases hfail with hfail | hfail
            · rw [hshared] at hfail
              exact hcond.1 hfail
            · rw [hshared] at hfail
              exact absurd hcond.2 (by rw [hfail]; exact Bool.false_ne_true)
        · intro v' rest' covered hval' _ _ _
          injection hval' with h1 h2
          subst h1
          subst h2
          refine ⟨_, rfl, rfl, ?_⟩
          rw [hshared]
          rfl
      · rw [if_neg hcond]
        refine ⟨?_, ?_, ?_⟩
        · intro v' rest' hval' hbad
          exfalso
          injection hval' with h1 h2
          subst h1
          exact hrange hbad
        · intro _
          rfl
        · intro v' rest' covered hval' hcov hne hpre
          exfalso
          apply hcond
          injection hval' with h1 h2
          subst h1
          subst h2
          rw [hcovsome] at hcov
          injection hcov with hc
          subst hc
          rw [hshared] at hne
          rw [hshared] at hpre
          exact ⟨hne, hpre⟩

/-- C2 (witness): the success case at a concrete menu: suggestions
`build.rs` and `build-all.sh` with empty spans over the empty buffer
share the prefix `build`, covering the empty text, so the prefix gets
spliced in and `true` returned. -/
theorem canPartiallyCompleteSpecWitness :
    partialMenu.values = bSug1 :: [bSug2] ∧
    coveredText partialMenu.values emptyEditor = some [] ∧
    sharedMatching partialMenu.values ≠ [] ∧
    List.isPrefixOf [] (sharedMatching partialMenu.values) = true ∧
    ∃ r, partialMenu.canPartiallyComplete emptyEditor emptyCompleter = some r
      ∧ r.1 = true
      ∧ r.2.2.getBuffer
          = emptyEditor.getBuffer.take bSug1.span.start
            ++ sharedMatching partialMenu.values
            ++ emptyEditor.getBuffer.drop bSug1.span.stop :=
  ⟨rfl, by decide, by decide, by decide,
    (ColumnarMenu.canPartiallyComplete_spec partialMenu emptyEditor
        emptyCompleter).2.2 bSug1 [bSug2] [] rfl (by decide) (by decide)
      (by decide)⟩

/-! ## The rendered window of `menu_string` -/

/-- A cell is rendered exactly when its global index lies in the
half-open window `[skip, skip + available_lines * cols)` and indexes an
existing suggestion. -/
theorem ColumnarMenu.mem_renderedCells (m : ColumnarMenu) (a : Nat)
    (c : Nat × Suggestion) :
    c ∈ m.renderedCells a
      ↔ m.skipValues a ≤ c.1 ∧ c.1 < m.skipValues a + a * m.getCols
          ∧ m.values[c.1]? = some c.2 := by
  unfold ColumnarMenu.renderedCells
  constructor
  · intro hc
    rw [List.mem_map] at hc
    obtain ⟨p, hp, hfc⟩ := hc
    rw [List.mem_enum_iff_getElem?, List.getElem?_take] at hp
    by_cases hj : p.1 < a * m.getCols
    · rw [if_pos hj, List.getElem?_drop] at hp
      have hc1 : c.1 = p.1 + m.skipValues a := by rw [← hfc]
      have hc2 : c.2 = p.2 := by rw [← hfc]
      refine ⟨by omega, by omega, ?_⟩
      rw [hc1, hc2, Nat.add_comm]
      exact hp
    · rw [if_neg hj] at hp
      cases hp
  · rintro ⟨h1, h2, h3⟩
    rw [List.mem_map]
    refine ⟨(c.1 - m.skipValues a, c.2), ?_, ?_⟩
    · rw [List.mem_enum_iff_getElem?, List.getElem?_take, if_pos (by omega),
        List.getElem?_drop]
      have heq : m.skipValues a + (c.1 - m.skipValues a) = c.1 := by omega
      rw [heq]
      exact h3
    · have heq : c.1 - m.skipValues a + m.skipValues a = c.1 := by omega
      rw [heq]

/-- C8 (counterexample): with an available line budget of 0 the window
is empty, so the cursor's row is not included in the rendered range
even though the cursor row (0) is ≥ the budget. -/
theorem renderedCellsEmptyAtZeroBudget :
    (menuOf 1 1 0 0).row_pos ≥ 0 ∧
    (menuOf 1 1 0 0).index < (menuOf 1 1 0 0).values.length ∧
    (menuOf 1 1 0 0).renderedCells 0 = [] ∧
    ¬ ∃ c ∈ (menuOf 1 1 0 0).renderedCells 0,
        c.1 / (menuOf 1 1 0 0).getCols = (menuOf 1 1 0 0).row_pos := by
  decide

/-- C8 (amended): for a non-empty value list, a cursor on an existing
cell and an available line budget of at least 1, when the cursor's row
is ≥ the budget the rendered window contains the cursor's cell (hence
its row), and every rendered cell lies in a grid row ≤ the cursor's
row — in particular the window's first rendered row is ≤ the cursor's
row. -/
theorem ColumnarMenu.menuStringWindow (m : ColumnarMenu) (availableLines : Nat)
    (hav : 1 ≤ availableLines) (hne : m.values ≠ [])
    (hcol : m.col_pos < m.getCols) (hidx : m.index < m.values.length)
    (hscroll : availableLines ≤ m.row_pos) :
    (∃ c ∈ m.renderedCells availableLines, c.1 = m.index)
    ∧ ∀ c ∈ m.renderedCells availableLines,
        c.1 / m.getCols ≤ m.row_pos := by
  have hC := m.getCols_pos
  have _ := List.length_pos.mpr hne
  have hidx' : m.index = m.row_pos * m.getCols + m.col_pos := rfl
  have hskip : m.skipValues availableLines
      = (m.row_pos - availableLines + 1) * m.getCols := by
    unfold ColumnarMenu.skipValues
    rw [if_pos hscroll]
  have hsm : (m.row_pos + 1) * m.getCols
      = (m.row_pos - availableLines + 1) * m.getCols
        + availableLines * m.getCols := by
    rw [← Nat.add_mul]
    have heq : m.row_pos - availableLines + 1 + availableLines
        = m.row_pos + 1 := by omega
    rw [heq]
  have hsm2 : (m.row_pos + 1) * m.getCols
      = m.row_pos * m.getCols + m.getCols := Nat.succ_mul _ _
  constructor
  · obtain ⟨s, hs⟩ : ∃ s, m.values[m.index]? = some s :=
      ⟨_, List.getElem?_eq_getElem hidx⟩
    refine ⟨(m.index, s), ?_, rfl⟩
    rw [ColumnarMenu.mem_renderedCells]
    have hle : (m.row_pos - availableLines + 1) * m.getCols
        ≤ m.row_pos * m.getCols :=
      Nat.mul_le_mul_right _ (by omega)
    exact ⟨by omega, by omega, hs⟩
  · intro c hc
    rw [ColumnarMenu.mem_renderedCells] at hc
    obtain ⟨h1, h2, h3⟩ := hc
    rw [hskip] at h2
    have hlt : c.1 < (m.row_pos + 1) * m.getCols := by omega
    have hdivlt : c.1 / m.getCols < m.row_pos + 1 :=
      (Nat.div_lt_iff_lt_mul hC).mpr hlt
    omega

/-- C8 (witness): the amended statement at a concrete menu (8 values in
3 columns, cursor `(1, 2)`, budget 1): the window skips the first two
grid rows and renders cells 6 and 7, including the cursor's cell 7. -/
theorem menuStringWindowWitness :
    1 ≤ 1 ∧ (menuOf 8 3 1 2).values ≠ []
    ∧ (menuOf 8 3 1 2).col_pos < (menuOf 8 3 1 2).getCols
    ∧ (menuOf 8 3 1 2).index < (menuOf 8 3 1 2).values.length
    ∧ 1 ≤ (menuOf 8 3 1 2).row_pos
    ∧ ((∃ c ∈ (menuOf 8 3 1 2).renderedCells 1, c.1 = (menuOf 8 3 1 2).index)
      ∧ ∀ c ∈ (menuOf 8 3 1 2).renderedCells 1,
          c.1 / (menuOf 8 3 1 2).getCols ≤ (menuOf 8 3 1 2).row_pos) :=
  ⟨by decide, by decide, by decide, by decide, by decide,
    ColumnarMenu.menuStringWindow (menuOf 8 3 1 2) 1 (by decide) (by decide)
      (by decide) (by decide) (by decide)⟩

end Reedline
